import Mathlib

/-!
A shallow embedding of the `gameson` crate's type-definition registry and
value parser, with theorems checking the specification's claims against it.

The embedding fixes the generic parameters `Id := Nat` and
`FieldName := String` (the crate's tests use `u32` and `&'static str`).
`BTreeMap`s that are only read through `get`/`insert`/`remove` are modelled
as association lists with overwrite-on-insert semantics; the one map whose
iteration order matters (`dependencies` in `detect_minimal_cycle`, iterated
in ascending key order) is built key-sorted. Rust panics (`expect`,
`unimplemented!`) are modelled as an explicit `panicked` outcome, and the
`while`/recursion constructs get an explicit fuel whose adequacy is proved
separately, so nontermination would show up as a `fuelOut` outcome.
-/

namespace Gameson

abbrev Id := Nat
abbrev FieldName := String

/-- Outcome of running panic-free-but-possibly-panicking Rust code. -/
inductive PanicOr (α : Type) where
  | panicked (msg : String)
  | ok (a : α)
deriving DecidableEq

def PanicOr.map {α β : Type} (g : α → β) : PanicOr α → PanicOr β
  | .panicked m => .panicked m
  | .ok a => .ok (g a)

/-- Outcome of running fuelled Rust code: `fuelOut` marks fuel exhaustion
(i.e. the modelled loop would still be running). -/
inductive RegRes (α : Type) where
  | fuelOut
  | panicked (msg : String)
  | ok (a : α)
deriving DecidableEq

def RegRes.map {α β : Type} (g : α → β) : RegRes α → RegRes β
  | .fuelOut => .fuelOut
  | .panicked m => .panicked m
  | .ok a => .ok (g a)

def RegRes.isFuelOut {α : Type} : RegRes α → Bool
  | .fuelOut => true
  | _ => false

/-! ### Association-list maps (for `BTreeMap`s used only via get/insert/remove) -/

def mlookup {κ β : Type} [DecidableEq κ] (m : List (κ × β)) (k : κ) : Option β :=
  match m with
  | [] => none
  | kv :: rest => if k = kv.1 then some kv.2 else mlookup rest k

def meraseKey {κ β : Type} [DecidableEq κ] (m : List (κ × β)) (k : κ) : List (κ × β) :=
  m.filter (fun kv => decide (kv.1 ≠ k))

/-- `BTreeMap::insert` (overwrite) semantics. -/
def minsert {κ β : Type} [DecidableEq κ] (m : List (κ × β)) (k : κ) (v : β) : List (κ × β) :=
  (k, v) :: meraseKey m k

/-- `BTreeMap::remove`: the removed value (if any) and the remaining map. -/
def mremove {κ β : Type} [DecidableEq κ] (m : List (κ × β)) (k : κ) :
    Option β × List (κ × β) :=
  (mlookup m k, meraseKey m k)

/-! ### Declaration-side data model (`type_attributes/*`, `type_definition.rs`) -/

structure ArrayTypeAttributes (α : Type) where
  items_type_id : α
deriving DecidableEq

structure DictionaryTypeAttributes (α : Type) where
  keys_type_id : α
  values_type_id : α
deriving DecidableEq

/-- `NumberTypeAttributes<Num>`; the builder enforces `min ≤ max` but the
fields themselves are plain options. -/
structure NumberTypeAttributes (Num : Type) where
  min : Option Num
  max : Option Num
deriving DecidableEq

structure EnumTypeValue where
  description : Option String
  deprecated : Bool
deriving DecidableEq

/-- `EnumTypeAttributes<FieldName>`; its two `BTreeMap`s are modelled as
association lists (none of the claims exercises their contents). -/
structure EnumTypeAttributes where
  values : List (FieldName × EnumTypeValue)
  aliases : List (FieldName × FieldName)
  default : Option FieldName
deriving DecidableEq

/-- `TypeAttributes<Id, FieldName>` (declaration form). The `Boolean`,
`String` and `Uuid` variants carry empty attribute structs in the source, so
they are payload-free here. Rust `i32`/`i64`/`u32`/`u64` bounds are embedded
into `Int`; `f32`/`f64` bounds are embedded into `Rat` (no claim evaluates a
floating-point bound). -/
inductive TypeAttributes where
  | array (a : ArrayTypeAttributes Id)
  | dictionary (d : DictionaryTypeAttributes Id)
  | boolean
  | int32 (n : NumberTypeAttributes Int)
  | int64 (n : NumberTypeAttributes Int)
  | uint32 (n : NumberTypeAttributes Int)
  | uint64 (n : NumberTypeAttributes Int)
  | float32 (n : NumberTypeAttributes Rat)
  | float64 (n : NumberTypeAttributes Rat)
  | string
  | enum (e : EnumTypeAttributes)
  | uuid
deriving DecidableEq

/-- `TypeAttributes::external_identifier_references`. -/
def TypeAttributes.externalIdentifierReferences : TypeAttributes → List Id
  | .array a => [a.items_type_id]
  | .dictionary d => [d.keys_type_id, d.values_type_id]
  | .boolean => []
  | .int32 _ => []
  | .int64 _ => []
  | .uint32 _ => []
  | .uint64 _ => []
  | .float32 _ => []
  | .float64 _ => []
  | .string => []
  | .enum _ => []
  | .uuid => []

/-- `TypeDefinition<Id, FieldName>`. -/
structure TypeDefinition where
  id : Id
  name : FieldName
  description : Option String
  attributes : TypeAttributes
deriving DecidableEq

/-! ### Instance-side data model (`type_attributes_instance`, `type_definition_instance.rs`) -/

mutual
/-- `TypeDefinitionInstance<Id, FieldName>` (`Arc` sharing is modelled by
plain structural sharing). -/
inductive TypeDefinitionInstance where
  | mk (id : Id) (name : FieldName) (attributes : TypeAttributesInstance)

/-- `TypeAttributesInstance<Id, FieldName>`: declaration shape with
`Array`/`Dictionary` id fields replaced by instances. -/
inductive TypeAttributesInstance where
  | array (a : ArrayTypeAttributes TypeDefinitionInstance)
  | dictionary (d : DictionaryTypeAttributes TypeDefinitionInstance)
  | boolean
  | int32 (n : NumberTypeAttributes Int)
  | int64 (n : NumberTypeAttributes Int)
  | uint32 (n : NumberTypeAttributes Int)
  | uint64 (n : NumberTypeAttributes Int)
  | float32 (n : NumberTypeAttributes Rat)
  | float64 (n : NumberTypeAttributes Rat)
  | string
  | enum (e : EnumTypeAttributes)
  | uuid
end

def TypeDefinitionInstance.id : TypeDefinitionInstance → Id
  | .mk i _ _ => i

def TypeDefinitionInstance.name : TypeDefinitionInstance → FieldName
  | .mk _ n _ => n

def TypeDefinitionInstance.attributes : TypeDefinitionInstance → TypeAttributesInstance
  | .mk _ _ a => a

/-- `TypeAttributesInstance::is_key_type`. -/
def TypeAttributesInstance.isKeyType : TypeAttributesInstance → Bool
  | .array _ => false
  | .dictionary _ => false
  | .boolean => false
  | .int32 _ => false
  | .int64 _ => false
  | .uint32 _ => false
  | .uint64 _ => false
  | .float32 _ => false
  | .float64 _ => false
  | .string => true
  | .enum _ => true
  | .uuid => true

/-! ### Display (`impl Display` chains feeding the inappropriate-key-type error) -/

/-- `Display for NumberTypeAttributes<Num>`: `min..max` with absent bounds
omitted. -/
def displayNumberAttributes {Num : Type} (f : Num → String) (n : NumberTypeAttributes Num) :
    String :=
  match n.min, n.max with
  | some mn, some mx => f mn ++ ".." ++ f mx
  | some mn, none => f mn ++ ".."
  | none, some mx => ".." ++ f mx
  | none, none => ".."

mutual
/-- `Display for TypeDefinitionInstance`: `name(id): attributes`. -/
def displayInstance : TypeDefinitionInstance → String
  | .mk i n a => n ++ "(" ++ toString i ++ "): " ++ displayAttributesInstance a

/-- `Display for TypeAttributesInstance`. The source has no `Display` impl
for `EnumTypeAttributes`; the enum branch is unreachable from the only
consumer of this function (the inappropriate-key-type error, which is never
built for an enum since enums are key types), so it renders an empty
payload. -/
def displayAttributesInstance : TypeAttributesInstance → String
  | .array (.mk inst) => "array(" ++ displayInstance inst ++ ")"
  | .dictionary (.mk k v) =>
      "dictionary((" ++ displayInstance k ++ ", " ++ displayInstance v ++ "))"
  | .boolean => "boolean"
  | .int32 n => "int32(" ++ displayNumberAttributes toString n ++ ")"
  | .int64 n => "int64(" ++ displayNumberAttributes toString n ++ ")"
  | .uint32 n => "uint32(" ++ displayNumberAttributes toString n ++ ")"
  | .uint64 n => "uint64(" ++ displayNumberAttributes toString n ++ ")"
  | .float32 n => "float32(" ++ displayNumberAttributes toString n ++ ")"
  | .float64 n => "float64(" ++ displayNumberAttributes toString n ++ ")"
  | .string => "string()"
  | .enum _ => "enum()"
  | .uuid => "uuid"
end

/-! ### Instantiation (`TypeAttributes::instantiate` and friends) -/

/-- `InstantiationError<Id, FieldName>`. -/
inductive InstantiationError where
  | inappropriateKeyType (key_type_id : Id) (key_type_name : FieldName) (key_type_str : String)
deriving DecidableEq

/-- `ArrayTypeAttributes::instantiate`: resolves `items_type_id` in
`refs_by_id`, panicking when absent. -/
def ArrayTypeAttributes.instantiate (a : ArrayTypeAttributes Id)
    (refs_by_id : List (Id × TypeDefinitionInstance)) :
    PanicOr (ArrayTypeAttributes TypeDefinitionInstance) :=
  match (mremove refs_by_id a.items_type_id).1 with
  | none => .panicked "items_type_id not found"
  | some inst => .ok ⟨inst⟩

/-- `DictionaryTypeAttributes::instantiate`: removes the key type from
`refs_by_id`, checks `is_key_type`, then removes the value type from the
already-shrunk map (the source of the shared-id panic). -/
def DictionaryTypeAttributes.instantiate (d : DictionaryTypeAttributes Id)
    (refs_by_id : List (Id × TypeDefinitionInstance)) :
    PanicOr (Except InstantiationError (DictionaryTypeAttributes TypeDefinitionInstance)) :=
  match mremove refs_by_id d.keys_type_id with
  | (none, _) => .panicked "keys_type_id not found"
  | (some kt, refs1) =>
    if kt.attributes.isKeyType then
      match mremove refs1 d.values_type_id with
      | (none, _) => .panicked "values_type_id not found"
      | (some vt, _) => .ok (.ok ⟨kt, vt⟩)
    else
      .ok (.error (.inappropriateKeyType kt.id kt.name
        (displayAttributesInstance kt.attributes)))

/-- `TypeAttributes::instantiate`. -/
def TypeAttributes.instantiate (t : TypeAttributes)
    (refs_by_id : List (Id × TypeDefinitionInstance)) :
    PanicOr (Except InstantiationError TypeAttributesInstance) :=
  match t with
  | .array a =>
    match a.instantiate refs_by_id with
    | .panicked m => .panicked m
    | .ok ai => .ok (.ok (.array ai))
  | .dictionary d =>
    match d.instantiate refs_by_id with
    | .panicked m => .panicked m
    | .ok (.error e) => .ok (.error e)
    | .ok (.ok di) => .ok (.ok (.dictionary di))
  | .boolean => .ok (.ok .boolean)
  | .int32 n => .ok (.ok (.int32 n))
  | .int64 n => .ok (.ok (.int64 n))
  | .uint32 n => .ok (.ok (.uint32 n))
  | .uint64 n => .ok (.ok (.uint64 n))
  | .float32 n => .ok (.ok (.float32 n))
  | .float64 n => .ok (.ok (.float64 n))
  | .string => .ok (.ok .string)
  | .enum e => .ok (.ok (.enum e))
  | .uuid => .ok (.ok .uuid)

/-! ### Registry (`type_definition_registry.rs`) -/

/-- `TypeDefinitionRegistry<Id, FieldName>`: the two indexes. -/
structure TypeDefinitionRegistry where
  by_id : List (Id × TypeDefinitionInstance)
  by_name : List (FieldName × TypeDefinitionInstance)

/-- `RegistrationError<Id, FieldName>`. -/
inductive RegistrationError where
  | duplicateTypeDefinition (existing_name : FieldName)
  | duplicateTypeDefinitionName (existing_id : Id)
  | brokenReference (referenced_id : Id)
  | circularReference (cycle : List (Id × FieldName))
  | blockedReference
  | instantiationError (e : InstantiationError)
deriving DecidableEq

/-- `TypeDefinitionRegistry::insert_type_definition_instance`. -/
def insertTypeDefinitionInstance (reg : TypeDefinitionRegistry)
    (inst : TypeDefinitionInstance) : TypeDefinitionRegistry :=
  ⟨minsert reg.by_id inst.id inst, minsert reg.by_name inst.name inst⟩

/-- One pending entry: the precomputed external references and the
declaration, as paired at the top of `register`. -/
abbrev Pending := List Id × TypeDefinition

/-- Stable insertion step for sorting pending declarations by ascending
reference count (`sort_by_key` is stable; a stable insertion sort placing an
originally-earlier element before later equals reproduces its order). -/
def insertByRefCount (x : Pending) : List Pending → List Pending
  | [] => [x]
  | y :: ys =>
    if x.1.length ≤ y.1.length then x :: y :: ys else y :: insertByRefCount x ys

def sortByRefCount : List Pending → List Pending
  | [] => []
  | x :: xs => insertByRefCount x (sortByRefCount xs)

/-- The reference-lookup loop of `register` step (c): resolve every
reference against `by_id`, accumulating `refs_by_id`; `none` means some
reference is unresolved and the declaration is postponed. -/
def resolveRefs (reg : TypeDefinitionRegistry) (refs : List Id)
    (acc : List (Id × TypeDefinitionInstance)) :
    Option (List (Id × TypeDefinitionInstance)) :=
  match refs with
  | [] => some acc
  | r :: rest =>
    match mlookup reg.by_id r with
    | some inst => resolveRefs reg rest (minsert acc r inst)
    | none => none

/-- One round of `register`'s `'outer` loop over the sorted pending list:
returns the updated registry, the instances registered this round, the
declarations failed this round, and the postponed list (all in processing
order). -/
def processRound (reg : TypeDefinitionRegistry) :
    List Pending →
    PanicOr (TypeDefinitionRegistry × List TypeDefinitionInstance ×
      List (TypeDefinition × RegistrationError) × List Pending)
  | [] => .ok (reg, [], [], [])
  | (refs, td) :: rest =>
    match mlookup reg.by_id td.id with
    | some existing =>
      (processRound reg rest).map fun out =>
        (out.1, out.2.1, (td, .duplicateTypeDefinition existing.name) :: out.2.2.1, out.2.2.2)
    | none =>
    match mlookup reg.by_name td.name with
    | some existing =>
      (processRound reg rest).map fun out =>
        (out.1, out.2.1, (td, .duplicateTypeDefinitionName existing.id) :: out.2.2.1, out.2.2.2)
    | none =>
    match resolveRefs reg refs [] with
    | none =>
      (processRound reg rest).map fun out =>
        (out.1, out.2.1, out.2.2.1, (refs, td) :: out.2.2.2)
    | some refs_by_id =>
      match td.attributes.instantiate refs_by_id with
      | .panicked m => .panicked m
      | .ok (.error e) =>
        (processRound reg rest).map fun out =>
          (out.1, out.2.1, (td, .instantiationError e) :: out.2.2.1, out.2.2.2)
      | .ok (.ok attrs) =>
        let inst := TypeDefinitionInstance.mk td.id td.name attrs
        (processRound (insertTypeDefinitionInstance reg inst) rest).map fun out =>
          (out.1, inst :: out.2.1, out.2.2.1, out.2.2.2)

/-- The broken-reference classification pass over the stalled pending list:
a declaration whose first reference is neither still pending nor registered
fails with `BrokenReference`; the rest are kept for cycle analysis. -/
def brokenScan (reg : TypeDefinitionRegistry) (remaining_ids : List Id) :
    List Pending →
    List (TypeDefinition × RegistrationError) × List Pending
  | [] => ([], [])
  | (refs, td) :: rest =>
    let out := brokenScan reg remaining_ids rest
    match refs.find? fun r =>
        !(remaining_ids.contains r || (mlookup reg.by_id r).isSome) with
    | some r => ((td, .brokenReference r) :: out.1, out.2)
    | none => (out.1, (refs, td) :: out.2)

/-! ### `detect_minimal_cycle` -/

/-- Insert into a sorted ascending duplicate-free `Nat` list
(`BTreeSet<Id>` contents in iteration order). -/
def setInsert (x : Nat) : List Nat → List Nat
  | [] => [x]
  | y :: ys =>
    if x < y then x :: y :: ys
    else if x = y then y :: ys
    else y :: setInsert x ys

def setOfList (l : List Nat) : List Nat :=
  l.foldl (fun s x => setInsert x s) []

/-- Insert into a key-sorted association list, overwriting an existing key
(`BTreeMap<Id, BTreeSet<Id>>` built by `collect`, keys in iteration order). -/
def depsInsert (k : Nat) (v : List Nat) : List (Nat × List Nat) → List (Nat × List Nat)
  | [] => [(k, v)]
  | kv :: rest =>
    if k < kv.1 then (k, v) :: kv :: rest
    else if k = kv.1 then (k, v) :: rest
    else kv :: depsInsert k v rest

/-- The `deps` map of `register`: pending declaration id ↦ its reference
set. -/
def buildDeps (tds : List Pending) : List (Nat × List Nat) :=
  tds.foldl (fun m p => depsInsert p.2.id (setOfList p.1) m) []

def neighborsOf (deps : List (Nat × List Nat)) (node : Nat) : List Nat :=
  match mlookup deps node with
  | some ns => ns
  | none => []

/-- The three mutable sets threaded through `detect_minimal_cycle`'s DFS. -/
structure DfsState where
  in_current_path : List Nat
  parent : List (Nat × Nat)
  visited : List Nat

def insertIfAbsent (x : Nat) (s : List Nat) : List Nat :=
  if s.contains x then s else x :: s

mutual
/-- The recursive `dfs` of `detect_minimal_cycle`; returns the updated
state and the back edge `(cycle_start, cycle_end)` when one is found.
`none` is fuel exhaustion. -/
def dfs (fuel : Nat) (deps : List (Nat × List Nat)) (node : Nat) (st : DfsState) :
    Option (DfsState × Option (Nat × Nat)) :=
  match fuel with
  | 0 => none
  | fuel + 1 =>
    let st1 : DfsState :=
      ⟨insertIfAbsent node st.in_current_path, st.parent, insertIfAbsent node st.visited⟩
    match dfsNeighbors fuel deps node (neighborsOf deps node) st1 with
    | none => none
    | some (st2, some cyc) => some (st2, some cyc)
    | some (st2, none) =>
      some (⟨st2.in_current_path.erase node, st2.parent, st2.visited⟩, none)
termination_by (fuel, 0)

/-- The `for neighbor in neighbors` loop inside `dfs`. -/
def dfsNeighbors (fuel : Nat) (deps : List (Nat × List Nat)) (node : Nat)
    (ns : List Nat) (st : DfsState) :
    Option (DfsState × Option (Nat × Nat)) :=
  match ns with
  | [] => some (st, none)
  | nb :: rest =>
    if st.visited.contains nb then
      if st.in_current_path.contains nb then some (st, some (nb, node))
      else dfsNeighbors fuel deps node rest st
    else
      let st' : DfsState := ⟨st.in_current_path, minsert st.parent nb node, st.visited⟩
      match dfs fuel deps nb st' with
      | none => none
      | some (st2, some cyc) => some (st2, some cyc)
      | some (st2, none) => dfsNeighbors fuel deps node rest st2
termination_by (fuel, ns.length + 1)
end

/-- The cycle-reconstruction `while current != cycle_start` loop, walking
`parent` pointers and collecting nodes; `acc` holds the nodes walked so
far in reverse walk order (which is the final cycle order). -/
def walkParents (fuel : Nat) (parent : List (Nat × Nat)) (cycle_start current : Nat)
    (acc : List Nat) : RegRes (List Nat) :=
  match fuel with
  | 0 => .fuelOut
  | fuel + 1 =>
    if current = cycle_start then .ok acc
    else
      match mlookup parent current with
      | none => .panicked "parent not found"
      | some p => walkParents fuel parent cycle_start p (current :: acc)

/-- All node occurrences of the dependency graph (keys and neighbors); its
length bounds the number of DFS visits. -/
def allNodes (deps : List (Nat × List Nat)) : List Nat :=
  deps.foldr (fun p acc => p.1 :: p.2 ++ acc) []

/-- The `for node in dependencies.keys()` loop of `detect_minimal_cycle`,
including cycle reconstruction on a found back edge. -/
def detectFromKeys (deps : List (Nat × List Nat)) (dfsFuel : Nat) (st : DfsState) :
    List Nat → RegRes (List Nat)
  | [] => .ok []
  | k :: rest =>
    if st.visited.contains k then detectFromKeys deps dfsFuel st rest
    else
      match dfs dfsFuel deps k st with
      | none => .fuelOut
      | some (st2, none) => detectFromKeys deps dfsFuel st2 rest
      | some (st2, some cyc) =>
        (walkParents (st2.parent.length + 1) st2.parent cyc.1 cyc.2 []).map
          fun acc => cyc.1 :: (acc ++ [cyc.1])

/-- `detect_minimal_cycle`. -/
def detectMinimalCycle (deps : List (Nat × List Nat)) : RegRes (List Nat) :=
  detectFromKeys deps ((allNodes deps).length + 1) ⟨[], [], []⟩ (deps.map fun p => p.1)

/-- The `(id, name)` pairs of a cycle, looked up among the cyclic
declarations; `none` models the `expect` panic when an id has no matching
declaration. -/
def cyclePairs (cyclic : List TypeDefinition) :
    List Nat → Option (List (Id × FieldName))
  | [] => some []
  | i :: rest =>
    match cyclic.find? fun td => td.id == i with
    | none => none
    | some td => (cyclePairs cyclic rest).map fun ps => (td.id, td.name) :: ps

/-- The `loop` of `register` that repeatedly extracts one minimal cycle,
failing its members with `CircularReference`, until none is found; returns
the accumulated failures and the survivors. -/
def cycleLoop (fuel : Nat) (tds : List Pending)
    (acc : List (TypeDefinition × RegistrationError)) :
    RegRes (List (TypeDefinition × RegistrationError) × List Pending) :=
  match fuel with
  | 0 => .fuelOut
  | fuel + 1 =>
    match detectMinimalCycle (buildDeps tds) with
    | .fuelOut => .fuelOut
    | .panicked m => .panicked m
    | .ok [] => .ok (acc, tds)
    | .ok (c :: cs) =>
      let cycle := c :: cs
      let cyclic := (tds.filter fun p => cycle.contains p.2.id).map fun p => p.2
      let rest := tds.filter fun p => !cycle.contains p.2.id
      match cyclePairs cyclic cycle with
      | none => .panicked "we should have a type definition for this id"
      | some pairs =>
        cycleLoop fuel rest (acc ++ cyclic.map fun td => (td, .circularReference pairs))

/-- The outer `while !type_definitions.is_empty()` loop of `register`.
`lastCount` mirrors the Rust variable (and always equals `tds.length` at
entry). -/
def registerLoop (fuel : Nat) (reg : TypeDefinitionRegistry) (tds : List Pending)
    (lastCount : Nat) (sAcc : List TypeDefinitionInstance)
    (fAcc : List (TypeDefinition × RegistrationError)) :
    RegRes (TypeDefinitionRegistry × List TypeDefinitionInstance ×
      List (TypeDefinition × RegistrationError)) :=
  match fuel with
  | 0 => .fuelOut
  | fuel + 1 =>
    if tds.isEmpty then .ok (reg, sAcc, fAcc)
    else
      match processRound reg (sortByRefCount tds) with
      | .panicked m => .panicked m
      | .ok (reg2, regd, failed, postponed) =>
        if postponed.length = lastCount then
          let remaining_ids := postponed.map fun p => p.2.id
          let scanned := brokenScan reg2 remaining_ids postponed
          match cycleLoop (scanned.2.length + 1) scanned.2 [] with
          | .fuelOut => .fuelOut
          | .panicked m => .panicked m
          | .ok (circFails, blocked) =>
            .ok (reg2, sAcc ++ regd,
              fAcc ++ failed ++ scanned.1 ++ circFails ++
                blocked.map fun p => (p.2, .blockedReference))
        else
          registerLoop fuel reg2 postponed postponed.length (sAcc ++ regd) (fAcc ++ failed)

/-- `TypeDefinitionRegistry::register`: the full batch registration.
Deterministic by construction (a Lean function); the fuel is proved
sufficient separately. -/
def register (reg : TypeDefinitionRegistry) (batch : List TypeDefinition) :
    RegRes (TypeDefinitionRegistry × List TypeDefinitionInstance ×
      List (TypeDefinition × RegistrationError)) :=
  registerLoop (batch.length + 1) reg
    (batch.map fun td => (td.attributes.externalIdentifierReferences, td))
    batch.length [] []

/-! ### Untyped input (`serde_json::Value` as used by `value.rs`) -/

/-- A `serde_json` number: integer-backed (`u64`/`i64`) or float-backed
(`f64`, embedded as `Rat`; no claim computes with a non-integral value). -/
inductive JNumber where
  | int (n : Int)
  | float (q : Rat)
deriving DecidableEq

/-- `serde_json::Number::as_i64`: integer-backed values in `i64` range
only; float-backed values are never converted. -/
def JNumber.asI64 : JNumber → Option Int
  | .int n => if -(2 ^ 63) ≤ n ∧ n < 2 ^ 63 then some n else none
  | .float _ => none

/-- The untyped tree value; `obj` carries the map's entry sequence. -/
inductive Json where
  | null
  | bool (b : Bool)
  | num (n : JNumber)
  | str (s : String)
  | arr (items : List Json)
  | obj (entries : List (String × Json))

/-! ### Numeric validation (`NumberTypeAttributes::validate`) -/

/-- `ValidateNumberTypeError<Num>`. -/
inductive ValidateNumberTypeError (Num : Type) where
  | invalidValue
  | lessThanMin (value min : Num)
  | greaterThanMax (value max : Num)
deriving DecidableEq

/-- `NumberTypeAttributes::validate`: check the inclusive bounds. -/
def NumberTypeAttributes.validate {Num : Type} [LinearOrder Num]
    (a : NumberTypeAttributes Num) (value : Num) :
    Except (ValidateNumberTypeError Num) Unit :=
  match a.min with
  | some mn =>
    if value < mn then .error (.lessThanMin value mn)
    else
      match a.max with
      | some mx => if mx < value then .error (.greaterThanMax value mx) else .ok ()
      | none => .ok ()
  | none =>
    match a.max with
    | some mx => if mx < value then .error (.greaterThanMax value mx) else .ok ()
    | none => .ok ()

/-! ### The value parser (`value.rs`) -/

/-- `ParseImplError`. -/
inductive ParseImplError where
  | invalidDictionaryKey (cause : ParseImplError)
  | invalidDictionaryValue (cause : ParseImplError)
  | invalidInt32 (e : ValidateNumberTypeError Int)
deriving DecidableEq

/-- `ParseErrorPathSegment`. -/
inductive ParseErrorPathSegment where
  | arrayIndex (i : Nat)
  | dictionaryKey (key : String)
deriving DecidableEq

def renderPathSegment : ParseErrorPathSegment → String
  | .arrayIndex i => "[" ++ toString i ++ "]"
  | .dictionaryKey k => "[" ++ k ++ "]"

/-- `Display for ParseErrorPath`. -/
def renderPath (p : List ParseErrorPathSegment) : String :=
  String.join (p.map renderPathSegment)

/-- `ParseErrorPath::pop`, which panics on an empty path. -/
def pathPop (p : List ParseErrorPathSegment) : PanicOr (List ParseErrorPathSegment) :=
  if p.isEmpty then .panicked "pop from empty path" else .ok p.dropLast

/-- `ValueImpl<FieldName>`: the typed value tree. The `Uuid` payload is
embedded as its string form (never exercised by a claim). -/
inductive ValueImpl where
  | array (items : List ValueImpl)
  | dictionary (entries : List (ValueImpl × ValueImpl))
  | boolean (b : Bool)
  | int32 (n : Int)
  | int64 (n : Int)
  | uint32 (n : Int)
  | uint64 (n : Int)
  | float32 (q : Rat)
  | float64 (q : Rat)
  | string (s : String)
  | enum (name : FieldName)
  | uuidVal (u : String)

mutual
/-- `ValueImpl::parse_for`: kind/shape-directed recursive parse. The
implemented arms are Array+array, Dictionary+object, Boolean+bool and
Int32+number; every other pairing hits `unimplemented!()`. The path is
threaded like the Rust `&mut` path (left as-is on error). -/
def parseImpl (inst : TypeDefinitionInstance) (value : Json)
    (path : List ParseErrorPathSegment) :
    PanicOr (List ParseErrorPathSegment × Except ParseImplError ValueImpl) :=
  match inst.attributes, value with
  | .array ⟨item⟩, .arr v =>
    match parseArrayItems item 0 v path with
    | .panicked m => .panicked m
    | .ok (path2, .error e) => .ok (path2, .error e)
    | .ok (path2, .ok items) => .ok (path2, .ok (.array items))
  | .dictionary ⟨kins, vins⟩, .obj entries =>
    match parseDictEntries kins vins entries path with
    | .panicked m => .panicked m
    | .ok (path2, .error e) => .ok (path2, .error e)
    | .ok (path2, .ok items) => .ok (path2, .ok (.dictionary items))
  | .boolean, .bool b => .ok (path, .ok (.boolean b))
  | .int32 a, .num v =>
    match v.asI64 with
    | none => .ok (path, .error (.invalidInt32 .invalidValue))
    | some n =>
      if n < -(2 ^ 31) ∨ 2 ^ 31 ≤ n then .panicked "failed to convert i64 to i32"
      else
        match a.validate n with
        | .error e => .ok (path, .error (.invalidInt32 e))
        | .ok _ => .ok (path, .ok (.int32 n))
  | _, _ => .panicked "not implemented"
termination_by (sizeOf value, 0)

/-- The per-element loop of the array arm: push `ArrayIndex(i)`, parse,
pop only on success, short-circuit on the first error. -/
def parseArrayItems (item : TypeDefinitionInstance) (i : Nat) (vs : List Json)
    (path : List ParseErrorPathSegment) :
    PanicOr (List ParseErrorPathSegment × Except ParseImplError (List ValueImpl)) :=
  match vs with
  | [] => .ok (path, .ok [])
  | v :: rest =>
    match parseImpl item v (path ++ [ParseErrorPathSegment.arrayIndex i]) with
    | .panicked m => .panicked m
    | .ok (path2, .error e) => .ok (path2, .error e)
    | .ok (path2, .ok val) =>
      match pathPop path2 with
      | .panicked m => .panicked m
      | .ok path3 =>
        match parseArrayItems item (i + 1) rest path3 with
        | .panicked m => .panicked m
        | .ok (path4, .error e) => .ok (path4, .error e)
        | .ok (path4, .ok vals) => .ok (path4, .ok (val :: vals))
termination_by (sizeOf vs, 1)

/-- The per-entry loop of the dictionary arm: push `DictionaryKey(k)`,
parse the raw key string against the key type (wrapping failures), then the
value (wrapping failures), pop only after both succeed. -/
def parseDictEntries (kins vins : TypeDefinitionInstance)
    (entries : List (String × Json)) (path : List ParseErrorPathSegment) :
    PanicOr (List ParseErrorPathSegment ×
      Except ParseImplError (List (ValueImpl × ValueImpl))) :=
  match entries with
  | [] => .ok (path, .ok [])
  | (k, v) :: rest =>
    match parseImpl kins (.str k) (path ++ [ParseErrorPathSegment.dictionaryKey k]) with
    | .panicked m => .panicked m
    | .ok (path2, .error e) => .ok (path2, .error (.invalidDictionaryKey e))
    | .ok (path2, .ok keyVal) =>
      match parseImpl vins v path2 with
      | .panicked m => .panicked m
      | .ok (path3, .error e) => .ok (path3, .error (.invalidDictionaryValue e))
      | .ok (path3, .ok valVal) =>
        match pathPop path3 with
        | .panicked m => .panicked m
        | .ok path4 =>
          match parseDictEntries kins vins rest path4 with
          | .panicked m => .panicked m
          | .ok (path5, .error e) => .ok (path5, .error e)
          | .ok (path5, .ok vals) => .ok (path5, .ok ((keyVal, valVal) :: vals))
termination_by (sizeOf entries, 1)
end

/-- `ParseError<Id, FieldName>`: originating instance, path, cause. -/
structure ParseError where
  inst : TypeDefinitionInstance
  path : List ParseErrorPathSegment
  err : ParseImplError

/-- `Value<Id, FieldName>`: an instance paired with its parsed tree. -/
structure Value where
  inst : TypeDefinitionInstance
  value : ValueImpl

/-- `Value::parse_for`: run the recursive parser with a fresh path and wrap
failures into `ParseError`. -/
def Value.parseFor (inst : TypeDefinitionInstance) (value : Json) :
    PanicOr (Except ParseError Value) :=
  match parseImpl inst value [] with
  | .panicked m => .panicked m
  | .ok (_, .ok v) => .ok (.ok ⟨inst, v⟩)
  | .ok (path, .error e) => .ok (.error ⟨inst, path, e⟩)

/-! ### Concrete fixtures used by the claim theorems -/

/-- The empty registry (`TypeDefinitionRegistry::default`). -/
def emptyRegistry : TypeDefinitionRegistry := ⟨[], []⟩

def exTd1 : TypeDefinition := ⟨1, "T1", none, .int32 ⟨none, none⟩⟩
def exTd2 : TypeDefinition := ⟨2, "T2", none, .array ⟨3⟩⟩
def exTd3 : TypeDefinition := ⟨3, "T3", none, .array ⟨4⟩⟩
def exTd4 : TypeDefinition := ⟨4, "T4", none, .array ⟨5⟩⟩
def exTd5 : TypeDefinition := ⟨5, "T5", none, .array ⟨3⟩⟩
def exInst1 : TypeDefinitionInstance := .mk 1 "T1" (.int32 ⟨none, none⟩)

/-- The closed cycle reported for the 3 → 4 → 5 → 3 reference loop. -/
def exCycle345 : List (Id × FieldName) := [(3, "T3"), (4, "T4"), (5, "T5"), (3, "T3")]

def exTdA : TypeDefinition := ⟨1, "A", none, .boolean⟩
def exTdB : TypeDefinition := ⟨1, "B", none, .array ⟨99⟩⟩
def exInstA : TypeDefinitionInstance := .mk 1 "A" .boolean
def exRegAB : TypeDefinitionRegistry := ⟨[(1, exInstA)], [("A", exInstA)]⟩

def exTdS : TypeDefinition := ⟨1, "S", none, .string⟩
def exTdD : TypeDefinition := ⟨2, "D", none, .dictionary ⟨1, 1⟩⟩

def exI32Bounded : TypeDefinitionInstance := .mk 7 "N" (.int32 ⟨some 0, some 10⟩)
def exI32Plain : TypeDefinitionInstance := .mk 1 "I" (.int32 ⟨none, none⟩)
def exArrI32 : TypeDefinitionInstance := .mk 3 "Arr" (.array ⟨exI32Plain⟩)

/-! ### Claim theorems (concrete evaluations) -/

/-- C3: registering, into an empty registry, a batch where declaration 1
has no references, 2 references 3, 3 references 4, 4 references 5 and 5
references 3, succeeds exactly on declaration 1; declarations 3, 4 and 5
each fail with `CircularReference` carrying the same closed `(id, name)`
cycle `[(3,T3),(4,T4),(5,T5),(3,T3)]`; and declaration 2 fails with
`BlockedReference`. -/
theorem c3_cycle_classification :
    register emptyRegistry [exTd1, exTd2, exTd3, exTd4, exTd5] =
      .ok (⟨[(1, exInst1)], [("T1", exInst1)]⟩, [exInst1],
        [(exTd3, .circularReference exCycle345), (exTd4, .circularReference exCycle345),
         (exTd5, .circularReference exCycle345), (exTd2, .blockedReference)]) := by
  simp [register, registerLoop, processRound, sortByRefCount, insertByRefCount,
    TypeAttributes.externalIdentifierReferences, exTd1, exTd2, exTd3, exTd4, exTd5,
    emptyRegistry, mlookup, resolveRefs, minsert, meraseKey, TypeAttributes.instantiate,
    insertTypeDefinitionInstance, TypeDefinitionInstance.id, TypeDefinitionInstance.name,
    brokenScan, cycleLoop, buildDeps, depsInsert, setOfList, setInsert,
    detectMinimalCycle, detectFromKeys, allNodes, dfs, dfsNeighbors, neighborsOf,
    insertIfAbsent, walkParents, cyclePairs, exInst1, exCycle345, RegRes.map, PanicOr.map,
    List.find?, List.filter]

/-- C6: for the Int32 instance with `min = 0`, `max = 10`, `parse_for` maps
the untyped number 5 to the typed value 5, rejects 11 with
"greater than maximum" naming 11 and 10, and rejects a float-backed 11 with
"invalid value"; but an integer outside the `i32` range (`2^40`) does not
produce an "invalid value" error — the `try_into().expect(..)` conversion
panics instead. -/
theorem c6_numeric_parse_behavior :
    Value.parseFor exI32Bounded (.num (.int 5)) = .ok (.ok ⟨exI32Bounded, .int32 5⟩) ∧
    Value.parseFor exI32Bounded (.num (.int 11)) =
      .ok (.error ⟨exI32Bounded, [], .invalidInt32 (.greaterThanMax 11 10)⟩) ∧
    Value.parseFor exI32Bounded (.num (.float 11)) =
      .ok (.error ⟨exI32Bounded, [], .invalidInt32 .invalidValue⟩) ∧
    Value.parseFor exI32Bounded (.num (.int (2 ^ 40))) =
      .panicked "failed to convert i64 to i32" := by
  refine ⟨?_, ?_, ?_, ?_⟩ <;>
    simp [Value.parseFor, parseImpl, JNumber.asI64, NumberTypeAttributes.validate,
      exI32Bounded, TypeDefinitionInstance.attributes]

/-- C7: parsing `[1, 2, 3]` against the Array-of-Int32 instance yields the
ordered typed sequence `[1, 2, 3]`; but parsing `[1, "x", 3]` does not
return a path-annotated `ParseError` — the Int32-vs-string pairing falls
into the parser's `unimplemented!()` arm and panics. -/
theorem c7_array_parse_behavior :
    Value.parseFor exArrI32 (.arr [.num (.int 1), .num (.int 2), .num (.int 3)]) =
      .ok (.ok ⟨exArrI32, .array [.int32 1, .int32 2, .int32 3]⟩) ∧
    Value.parseFor exArrI32 (.arr [.num (.int 1), .str "x", .num (.int 3)]) =
      .panicked "not implemented" := by
  refine ⟨?_, ?_⟩ <;>
    simp [Value.parseFor, parseImpl, parseArrayItems, pathPop, JNumber.asI64,
      NumberTypeAttributes.validate, exArrI32, exI32Plain, TypeDefinitionInstance.attributes]

/-- C8: every Boolean instance passes an untyped boolean straight through;
but a String instance with an untyped string does not — the parser has no
String arm and hits `unimplemented!()`. -/
theorem c8_scalar_passthrough :
    (∀ (i : Id) (n : FieldName) (b : Bool),
      Value.parseFor (.mk i n .boolean) (.bool b) =
        .ok (.ok ⟨.mk i n .boolean, .boolean b⟩)) ∧
    Value.parseFor (.mk 5 "S" .string) (.str "x") = .panicked "not implemented" := by
  refine ⟨fun i n b => ?_, ?_⟩ <;>
    simp [Value.parseFor, parseImpl, TypeDefinitionInstance.attributes]

/-- C10: a batch holding a String declaration and a Dictionary declaration
whose key and value types are both that String makes `register` panic with
"values_type_id not found": the resolved references collapse into one map
entry, which the key-type lookup removes before the value-type lookup. -/
theorem c10_shared_dictionary_id_panic :
    register emptyRegistry [exTdS, exTdD] = .panicked "values_type_id not found" := by
  simp [register, registerLoop, processRound, sortByRefCount, insertByRefCount,
    TypeAttributes.externalIdentifierReferences, exTdS, exTdD, emptyRegistry,
    mlookup, resolveRefs, minsert, meraseKey, TypeAttributes.instantiate,
    DictionaryTypeAttributes.instantiate, mremove, TypeAttributesInstance.isKeyType,
    insertTypeDefinitionInstance, TypeDefinitionInstance.id, TypeDefinitionInstance.name,
    TypeDefinitionInstance.attributes, PanicOr.map]

/-- C2 counterexample: in the batch `[A(id 1), B(id 1)]` registered into an
empty registry, declaration B is reported failed, yet after the call the
`by_id` index does hold an entry under B's id (the sibling A's instance) —
so a failed declaration's id is not always absent from the indexes. -/
theorem c2_counterexample :
    register emptyRegistry [exTdA, exTdB] =
      .ok (exRegAB, [exInstA], [(exTdB, .duplicateTypeDefinition "A")]) ∧
    (mlookup exRegAB.by_id exTdB.id).isSome = true := by
  refine ⟨?_, ?_⟩
  · simp [register, registerLoop, processRound, sortByRefCount, insertByRefCount,
      TypeAttributes.externalIdentifierReferences, exTdA, exTdB, emptyRegistry,
      mlookup, resolveRefs, minsert, meraseKey, TypeAttributes.instantiate,
      insertTypeDefinitionInstance, TypeDefinitionInstance.id, TypeDefinitionInstance.name,
      exInstA, exRegAB, PanicOr.map]
  · simp [exRegAB, exTdB, mlookup, exInstA]

/-- C4 counterexample: declaration B of the batch `[A(id 1), B(id 1)]`
references id 99, which is neither registered nor the id of any batch
declaration (both batch ids are 1), yet B fails with
`DuplicateTypeDefinition`, not with `BrokenReference 99` — the duplicate-id
check preempts the broken-reference classification. -/
theorem c4_counterexample :
    register emptyRegistry [exTdA, exTdB] =
      .ok (exRegAB, [exInstA], [(exTdB, .duplicateTypeDefinition "A")]) ∧
    exTdB.attributes.externalIdentifierReferences = [99] ∧
    mlookup emptyRegistry.by_id 99 = none ∧
    exTdA.id = 1 ∧ exTdB.id = 1 := by
  refine ⟨?_, ?_, ?_, ?_, ?_⟩
  · simp [register, registerLoop, processRound, sortByRefCount, insertByRefCount,
      TypeAttributes.externalIdentifierReferences, exTdA, exTdB, emptyRegistry,
      mlookup, resolveRefs, minsert, meraseKey, TypeAttributes.instantiate,
      insertTypeDefinitionInstance, TypeDefinitionInstance.id, TypeDefinitionInstance.name,
      exInstA, exRegAB, PanicOr.map]
  · simp [exTdB, TypeAttributes.externalIdentifierReferences]
  · simp [emptyRegistry, mlookup]
  · simp [exTdA]
  · simp [exTdB]

/-! ### Map lemmas -/

theorem mlookup_eraseKey_ne {κ β : Type} [DecidableEq κ] {k k' : κ} (h : k' ≠ k)
    (m : List (κ × β)) : mlookup (meraseKey m k) k' = mlookup m k' := by
  induction m with
  | nil => rfl
  | cons kv rest ih =>
    by_cases hk : kv.1 = k
    · have h1 : meraseKey (kv :: rest) k = meraseKey rest k := by
        simp [meraseKey, List.filter, hk]
      have h2 : ¬k' = kv.1 := fun hc => h (hc.trans hk)
      rw [h1, ih]
      simp [mlookup, h2]
    · have h1 : meraseKey (kv :: rest) k = kv :: meraseKey rest k := by
        simp [meraseKey, List.filter, hk]
      rw [h1]
      by_cases hk' : k' = kv.1
      · simp [mlookup, hk']
      · simp [mlookup, hk', ih]

theorem mlookup_minsert {κ β : Type} [DecidableEq κ] (m : List (κ × β)) (k : κ) (v : β)
    (k' : κ) :
    mlookup (minsert m k v) k' = if k' = k then some v else mlookup m k' := by
  by_cases h : k' = k
  · simp [minsert, mlookup, h]
  · simp [minsert, mlookup, h, mlookup_eraseKey_ne h]

theorem PanicOr.map_eq_ok {α β : Type} (g : α → β) (x : PanicOr α) (b : β) :
    x.map g = .ok b ↔ ∃ a, x = .ok a ∧ g a = b := by
  cases x <;> simp [PanicOr.map]

/-! ### Registry-evolution spec for `processRound` (claims C2, C4) -/

/-- What one round does to the indexes: pre-existing bindings persist, new
bindings come exactly from the round's registered instances, every
registered instance ends up bound under its id and name, and registered
instances and postponed entries stem from the round's input. -/
theorem processRound_spec (reg : TypeDefinitionRegistry) (tds : List Pending)
    (r2 : TypeDefinitionRegistry) (s : List TypeDefinitionInstance)
    (f : List (TypeDefinition × RegistrationError)) (p : List Pending)
    (h : processRound reg tds = .ok (r2, s, f, p)) :
    (∀ k v, mlookup reg.by_id k = some v → mlookup r2.by_id k = some v) ∧
    (∀ k v, mlookup reg.by_name k = some v → mlookup r2.by_name k = some v) ∧
    (∀ k v, mlookup r2.by_id k = some v → mlookup reg.by_id k = some v ∨ v ∈ s) ∧
    (∀ k v, mlookup r2.by_name k = some v → mlookup reg.by_name k = some v ∨ v ∈ s) ∧
    (∀ i, i ∈ s → mlookup r2.by_id i.id = some i ∧ mlookup r2.by_name i.name = some i) ∧
    (∀ i, i ∈ s → ∃ q, q ∈ tds ∧ i.id = q.2.id ∧ i.name = q.2.name) ∧
    (∀ q, q ∈ p → q ∈ tds) := by
  induction tds generalizing reg r2 s f p with
  | nil =>
    simp only [processRound, PanicOr.ok.injEq] at h
    obtain ⟨rfl, rfl, rfl, rfl⟩ := h
    refine ⟨fun _ _ hv => hv, fun _ _ hv => hv, fun _ _ hv => .inl hv, fun _ _ hv => .inl hv,
      ?_, ?_, ?_⟩ <;> simp
  | cons head rest ih =>
    obtain ⟨refs, td⟩ := head
    simp only [processRound] at h
    split at h
    next existing heqid =>
      -- duplicate id
      rw [PanicOr.map_eq_ok] at h
      obtain ⟨⟨r2', s', f', p'⟩, hrec, heq⟩ := h
      simp only [Prod.mk.injEq] at heq
      obtain ⟨rfl, rfl, rfl, rfl⟩ := heq
      obtain ⟨m1, m2, n1, n2, sb, pv, pp⟩ := ih reg r2' s' f' p' hrec
      exact ⟨m1, m2, n1, n2, sb,
        fun i hi => (pv i hi).elim fun q hq => ⟨q, .tail _ hq.1, hq.2⟩,
        fun q hq => .tail _ (pp q hq)⟩
    next heqid =>
      split at h
      next existing heqname =>
        -- duplicate name
        rw [PanicOr.map_eq_ok] at h
        obtain ⟨⟨r2', s', f', p'⟩, hrec, heq⟩ := h
        simp only [Prod.mk.injEq] at heq
        obtain ⟨rfl, rfl, rfl, rfl⟩ := heq
        obtain ⟨m1, m2, n1, n2, sb, pv, pp⟩ := ih reg r2' s' f' p' hrec
        exact ⟨m1, m2, n1, n2, sb,
          fun i hi => (pv i hi).elim fun q hq => ⟨q, .tail _ hq.1, hq.2⟩,
          fun q hq => .tail _ (pp q hq)⟩
      next heqname =>
        split at h
        next heqres =>
          -- unresolved references: postponed
          rw [PanicOr.map_eq_ok] at h
          obtain ⟨⟨r2', s', f', p'⟩, hrec, heq⟩ := h
          simp only [Prod.mk.injEq] at heq
          obtain ⟨rfl, rfl, rfl, rfl⟩ := heq
          obtain ⟨m1, m2, n1, n2, sb, pv, pp⟩ := ih reg r2' s' f' p' hrec
          refine ⟨m1, m2, n1, n2, sb,
            fun i hi => (pv i hi).elim fun q hq => ⟨q, .tail _ hq.1, hq.2⟩,
            fun q hq => ?_⟩
          rcases List.mem_cons.1 hq with hq | hq
          · exact hq ▸ List.mem_cons_self _ _
          · exact .tail _ (pp q hq)
        next refs_by_id heqres =>
          split at h
          next m heqinst =>
            -- instantiation panicked: contradiction
            exact absurd h (by simp)
          next e heqinst =>
            -- instantiation error: failed
            rw [PanicOr.map_eq_ok] at h
            obtain ⟨⟨r2', s', f', p'⟩, hrec, heq⟩ := h
            simp only [Prod.mk.injEq] at heq
            obtain ⟨rfl, rfl, rfl, rfl⟩ := heq
            obtain ⟨m1, m2, n1, n2, sb, pv, pp⟩ := ih reg r2' s' f' p' hrec
            exact ⟨m1, m2, n1, n2, sb,
              fun i hi => (pv i hi).elim fun q hq => ⟨q, .tail _ hq.1, hq.2⟩,
              fun q hq => .tail _ (pp q hq)⟩
          next attrs heqinst =>
            -- instantiated and inserted
            rw [PanicOr.map_eq_ok] at h
            obtain ⟨⟨r2', s', f', p'⟩, hrec, heq⟩ := h
            simp only [Prod.mk.injEq] at heq
            obtain ⟨rfl, rfl, rfl, rfl⟩ := heq
            obtain ⟨m1, m2, n1, n2, sb, pv, pp⟩ := ih _ r2' s' f' p' hrec
            set inst := TypeDefinitionInstance.mk td.id td.name attrs with hinstdef
            have hiid : inst.id = td.id := rfl
            have hiname : inst.name = td.name := rfl
            have hupId : ∀ k v, mlookup reg.by_id k = some v →
                mlookup (insertTypeDefinitionInstance reg inst).by_id k = some v := by
              intro k v hv
              have hk : ¬k = inst.id := by
                intro hk; rw [hk, hiid] at hv
                exact Option.noConfusion (hv.symm.trans heqid)
              simpa [insertTypeDefinitionInstance, mlookup_minsert, hk] using hv
            have hupName : ∀ k v, mlookup reg.by_name k = some v →
                mlookup (insertTypeDefinitionInstance reg inst).by_name k = some v := by
              intro k v hv
              have hk : ¬k = inst.name := by
                intro hk; rw [hk, hiname] at hv
                exact Option.noConfusion (hv.symm.trans heqname)
              simpa [insertTypeDefinitionInstance, mlookup_minsert, hk] using hv
            refine ⟨fun k v hv => m1 k v (hupId k v hv), fun k v hv => m2 k v (hupName k v hv),
              ?_, ?_, ?_, ?_, fun q hq => .tail _ (pp q hq)⟩
            · intro k v hv
              rcases n1 k v hv with hv' | hv'
              · rw [insertTypeDefinitionInstance] at hv'
                simp only [mlookup_minsert] at hv'
                split at hv'
                · exact .inr (by simp [← Option.some.inj hv'])
                · exact .inl hv'
              · exact .inr (List.mem_cons_of_mem _ hv')
            · intro k v hv
              rcases n2 k v hv with hv' | hv'
              · rw [insertTypeDefinitionInstance] at hv'
                simp only [mlookup_minsert] at hv'
                split at hv'
                · exact .inr (by simp [← Option.some.inj hv'])
                · exact .inl hv'
              · exact .inr (List.mem_cons_of_mem _ hv')
            · intro i hi
              rcases List.mem_cons.1 hi with rfl | hi'
              · constructor
                · exact m1 _ _ (by simp [insertTypeDefinitionInstance, mlookup_minsert])
                · exact m2 _ _ (by simp [insertTypeDefinitionInstance, mlookup_minsert])
              · exact sb i hi'
            · intro i hi
              rcases List.mem_cons.1 hi with rfl | hi'
              · exact ⟨(refs, td), List.mem_cons_self _ _, rfl, rfl⟩
              · exact (pv i hi').elim fun q hq => ⟨q, .tail _ hq.1, hq.2⟩

/-- Registry evolution across the whole round loop: pre-existing bindings
persist, post-call bindings are pre-existing or belong to the succeeded
list, succeeded instances are bound under their id and name, and already
accumulated successes stay in the final list. -/
theorem registerLoop_spec (fuel : Nat) (reg : TypeDefinitionRegistry) (tds : List Pending)
    (lastCount : Nat) (sAcc : List TypeDefinitionInstance)
    (fAcc : List (TypeDefinition × RegistrationError)) (r' : TypeDefinitionRegistry)
    (s : List TypeDefinitionInstance) (f : List (TypeDefinition × RegistrationError))
    (h : registerLoop fuel reg tds lastCount sAcc fAcc = .ok (r', s, f))
    (hacc : ∀ i ∈ sAcc, mlookup reg.by_id i.id = some i ∧ mlookup reg.by_name i.name = some i) :
    (∀ k v, mlookup reg.by_id k = some v → mlookup r'.by_id k = some v) ∧
    (∀ k v, mlookup reg.by_name k = some v → mlookup r'.by_name k = some v) ∧
    (∀ k v, mlookup r'.by_id k = some v → mlookup reg.by_id k = some v ∨ v ∈ s) ∧
    (∀ k v, mlookup r'.by_name k = some v → mlookup reg.by_name k = some v ∨ v ∈ s) ∧
    (∀ i ∈ s, mlookup r'.by_id i.id = some i ∧ mlookup r'.by_name i.name = some i) ∧
    (∀ i ∈ sAcc, i ∈ s) := by
  induction fuel generalizing reg tds lastCount sAcc fAcc with
  | zero => exact absurd h (by simp [registerLoop])
  | succ fuel ih =>
    by_cases he : tds.isEmpty
    · simp only [registerLoop, he, if_true, RegRes.ok.injEq, Prod.mk.injEq] at h
      obtain ⟨rfl, rfl, rfl⟩ := h
      exact ⟨fun _ _ hv => hv, fun _ _ hv => hv, fun _ _ hv => .inl hv, fun _ _ hv => .inl hv,
        fun i hi => hacc i hi, fun _ hi => hi⟩
    · simp only [registerLoop, he, if_false, Bool.false_eq_true] at h
      split at h
      · exact absurd h (by simp)
      next reg2 regd failed postponed heqpr =>
        obtain ⟨m1, m2, n1, n2, sb, _, _⟩ :=
          processRound_spec reg (sortByRefCount tds) reg2 regd failed postponed heqpr
        split at h
        · -- classification round: registry is reg2, successes are sAcc ++ regd
          split at h
          · exact absurd h (by simp)
          · exact absurd h (by simp)
          next circFails blocked heqcl =>
            simp only [RegRes.ok.injEq, Prod.mk.injEq] at h
            obtain ⟨rfl, rfl, rfl⟩ := h
            refine ⟨m1, m2, ?_, ?_, ?_, ?_⟩
            · intro k v hv
              rcases n1 k v hv with hv' | hv'
              · exact .inl hv'
              · exact .inr (List.mem_append.2 (.inr hv'))
            · intro k v hv
              rcases n2 k v hv with hv' | hv'
              · exact .inl hv'
              · exact .inr (List.mem_append.2 (.inr hv'))
            · intro i hi
              rcases List.mem_append.1 hi with hi' | hi'
              · exact ⟨m1 _ _ (hacc i hi').1, m2 _ _ (hacc i hi').2⟩
              · exact sb i hi'
            · intro i hi
              exact List.mem_append.2 (.inl hi)
        · -- progress: recurse on the postponed list
          have hacc2 : ∀ i ∈ sAcc ++ regd,
              mlookup reg2.by_id i.id = some i ∧ mlookup reg2.by_name i.name = some i := by
            intro i hi
            rcases List.mem_append.1 hi with hi' | hi'
            · exact ⟨m1 _ _ (hacc i hi').1, m2 _ _ (hacc i hi').2⟩
            · exact sb i hi'
          obtain ⟨a1, a2, c1, c2, e1, f1⟩ :=
            ih reg2 postponed postponed.length (sAcc ++ regd) (fAcc ++ failed) h hacc2
          refine ⟨fun k v hv => a1 k v (m1 k v hv), fun k v hv => a2 k v (m2 k v hv),
            ?_, ?_, e1, ?_⟩
          · intro k v hv
            rcases c1 k v hv with hv' | hv'
            · rcases n1 k v hv' with hv'' | hv''
              · exact .inl hv''
              · exact .inr (f1 v (List.mem_append.2 (.inr hv'')))
            · exact .inr hv'
          · intro k v hv
            rcases c2 k v hv with hv' | hv'
            · rcases n2 k v hv' with hv'' | hv''
              · exact .inl hv''
              · exact .inr (f1 v (List.mem_append.2 (.inr hv'')))
            · exact .inr hv'
          · intro i hi
            exact f1 i (List.mem_append.2 (.inl hi))

/-- C2 (amended): `register` never removes or replaces an index entry —
every binding present before the call persists unchanged; every binding
present afterwards is either pre-existing or maps to an instance of the
succeeded list; and every succeeded instance is bound under its own id and
name in both indexes. Hence no instance is ever inserted for a failed
declaration; but a failed declaration's id or name may still be bound (by a
pre-existing entry or a successful sibling) when the failure is a
duplicate, so the indexes need not lack an entry at that id or name. -/
theorem c2_registry_monotone (reg : TypeDefinitionRegistry) (batch : List TypeDefinition)
    (r' : TypeDefinitionRegistry) (s : List TypeDefinitionInstance)
    (f : List (TypeDefinition × RegistrationError))
    (h : register reg batch = .ok (r', s, f)) :
    (∀ k v, mlookup reg.by_id k = some v → mlookup r'.by_id k = some v) ∧
    (∀ k v, mlookup reg.by_name k = some v → mlookup r'.by_name k = some v) ∧
    (∀ k v, mlookup r'.by_id k = some v → mlookup reg.by_id k = some v ∨ v ∈ s) ∧
    (∀ k v, mlookup r'.by_name k = some v → mlookup reg.by_name k = some v ∨ v ∈ s) ∧
    (∀ i ∈ s, mlookup r'.by_id i.id = some i ∧ mlookup r'.by_name i.name = some i) := by
  obtain ⟨a1, a2, c1, c2, e1, _⟩ :=
    registerLoop_spec _ _ _ _ _ _ _ _ _ h (by simp)
  exact ⟨a1, a2, c1, c2, e1⟩

/-- Witness for C2: registering `A(id 1)` into the empty registry makes the
instance visible in both indexes, applying the amended theorem at that
concrete input. -/
theorem c2_registry_monotone_witness :
    mlookup exRegAB.by_id exInstA.id = some exInstA ∧
    mlookup exRegAB.by_name exInstA.name = some exInstA :=
  (c2_registry_monotone emptyRegistry [exTdA] exRegAB [exInstA] [] rfl).2.2.2.2
    exInstA (List.mem_singleton.mpr rfl)

/-! ### Batch-partition machinery for C1 -/

/-- The identifying key of a pending entry. -/
def pendKey (p : Pending) : Id × FieldName := (p.2.id, p.2.name)

/-- The identifying key of a registered instance. -/
def instKey (i : TypeDefinitionInstance) : Id × FieldName := (i.id, i.name)

/-- The identifying key of a failed declaration. -/
def failKey (q : TypeDefinition × RegistrationError) : Id × FieldName := (q.1.id, q.1.name)

theorem insertByRefCount_perm (x : Pending) (l : List Pending) :
    (insertByRefCount x l).Perm (x :: l) := by
  induction l with
  | nil => exact List.Perm.refl _
  | cons y ys ih =>
    by_cases hc : x.1.length ≤ y.1.length
    · simp [insertByRefCount, hc]
    · simp only [insertByRefCount, hc, if_false]
      exact (ih.cons y).trans (List.Perm.swap x y ys)

theorem sortByRefCount_perm (l : List Pending) : (sortByRefCount l).Perm l := by
  induction l with
  | nil => exact List.Perm.refl _
  | cons x xs ih => exact (insertByRefCount_perm x (sortByRefCount xs)).trans (ih.cons x)

theorem perm_step_fail {α : Type} (k : α) (s f p rest : List α)
    (ih : ((s ++ f) ++ p).Perm rest) : ((s ++ (k :: f)) ++ p).Perm (k :: rest) := by
  have e1 : (s ++ (k :: f)) ++ p = s ++ (k :: (f ++ p)) := by simp
  have e2 : (s ++ f) ++ p = s ++ (f ++ p) := by simp
  rw [e1]
  exact List.Perm.trans List.perm_middle (List.Perm.cons k (e2 ▸ ih))

theorem perm_step_post {α : Type} (k : α) (s f p rest : List α)
    (ih : ((s ++ f) ++ p).Perm rest) : ((s ++ f) ++ (k :: p)).Perm (k :: rest) :=
  List.Perm.trans List.perm_middle (List.Perm.cons k ih)

theorem perm_step_succ {α : Type} (k : α) (s f p rest : List α)
    (ih : ((s ++ f) ++ p).Perm rest) : (((k :: s) ++ f) ++ p).Perm (k :: rest) := by
  have e1 : ((k :: s) ++ f) ++ p = k :: ((s ++ f) ++ p) := by simp
  rw [e1]
  exact ih.cons k

/-- One round neither drops nor duplicates a declaration: the keys of the
registered, failed and postponed outputs are a permutation of the round's
input keys. -/
theorem processRound_perm (reg : TypeDefinitionRegistry) (tds : List Pending)
    (r2 : TypeDefinitionRegistry) (s : List TypeDefinitionInstance)
    (f : List (TypeDefinition × RegistrationError)) (p : List Pending)
    (h : processRound reg tds = .ok (r2, s, f, p)) :
    ((s.map instKey ++ f.map failKey) ++ p.map pendKey).Perm (tds.map pendKey) := by
  induction tds generalizing reg r2 s f p with
  | nil =>
    simp only [processRound, PanicOr.ok.injEq, Prod.mk.injEq] at h
    obtain ⟨rfl, rfl, rfl, rfl⟩ := h
    simp
  | cons head rest ih =>
    obtain ⟨refs, td⟩ := head
    simp only [processRound] at h
    split at h
    next existing heqid =>
      rw [PanicOr.map_eq_ok] at h
      obtain ⟨⟨r2', s', f', p'⟩, hrec, heq⟩ := h
      simp only [Prod.mk.injEq] at heq
      obtain ⟨rfl, rfl, rfl, rfl⟩ := heq
      simp only [List.map_cons]
      exact perm_step_fail _ _ _ _ _ (ih reg r2' s' f' p' hrec)
    next heqid =>
      split at h
      next existing heqname =>
        rw [PanicOr.map_eq_ok] at h
        obtain ⟨⟨r2', s', f', p'⟩, hrec, heq⟩ := h
        simp only [Prod.mk.injEq] at heq
        obtain ⟨rfl, rfl, rfl, rfl⟩ := heq
        simp only [List.map_cons]
        exact perm_step_fail _ _ _ _ _ (ih reg r2' s' f' p' hrec)
      next heqname =>
        split at h
        next heqres =>
          rw [PanicOr.map_eq_ok] at h
          obtain ⟨⟨r2', s', f', p'⟩, hrec, heq⟩ := h
          simp only [Prod.mk.injEq] at heq
          obtain ⟨rfl, rfl, rfl, rfl⟩ := heq
          simp only [List.map_cons]
          exact perm_step_post _ _ _ _ _ (ih reg r2' s' f' p' hrec)
        next refs_by_id heqres =>
          split at h
          next m heqinst => exact absurd h (by simp)
          next e heqinst =>
            rw [PanicOr.map_eq_ok] at h
            obtain ⟨⟨r2', s', f', p'⟩, hrec, heq⟩ := h
            simp only [Prod.mk.injEq] at heq
            obtain ⟨rfl, rfl, rfl, rfl⟩ := heq
            simp only [List.map_cons]
            exact perm_step_fail _ _ _ _ _ (ih _ r2' s' f' p' hrec)
          next attrs heqinst =>
            rw [PanicOr.map_eq_ok] at h
            obtain ⟨⟨r2', s', f', p'⟩, hrec, heq⟩ := h
            simp only [Prod.mk.injEq] at heq
            obtain ⟨rfl, rfl, rfl, rfl⟩ := heq
            simp only [List.map_cons]
            exact perm_step_succ _ _ _ _ _ (ih _ r2' s' f' p' hrec)

/-- The broken-reference pass neither drops nor duplicates a declaration. -/
theorem brokenScan_perm (reg : TypeDefinitionRegistry) (remaining_ids : List Id)
    (tds : List Pending) (f : List (TypeDefinition × RegistrationError)) (p : List Pending)
    (h : brokenScan reg remaining_ids tds = (f, p)) :
    (f.map failKey ++ p.map pendKey).Perm (tds.map pendKey) := by
  induction tds generalizing f p with
  | nil =>
    simp only [brokenScan, Prod.mk.injEq] at h
    obtain ⟨rfl, rfl⟩ := h
    simp
  | cons head rest ih =>
    obtain ⟨refs, td⟩ := head
    simp only [brokenScan] at h
    split at h
    next r heqfind =>
      injection h with h1 h2
      subst h1; subst h2
      have hr := ih (brokenScan reg remaining_ids rest).1 (brokenScan reg remaining_ids rest).2 rfl
      simp only [List.map_cons, List.cons_append]
      exact hr.cons _
    next heqfind =>
      injection h with h1 h2
      subst h1; subst h2
      have hr := ih (brokenScan reg remaining_ids rest).1 (brokenScan reg remaining_ids rest).2 rfl
      simp only [List.map_cons]
      exact List.Perm.trans List.perm_middle (hr.cons _)

/-- Repeated cycle extraction neither drops nor duplicates a declaration. -/
theorem cycleLoop_perm (fuel : Nat) (tds : List Pending)
    (acc : List (TypeDefinition × RegistrationError))
    (cf : List (TypeDefinition × RegistrationError)) (rest : List Pending)
    (h : cycleLoop fuel tds acc = .ok (cf, rest)) :
    (cf.map failKey ++ rest.map pendKey).Perm (acc.map failKey ++ tds.map pendKey) := by
  induction fuel generalizing tds acc cf rest with
  | zero => exact absurd h (by simp [cycleLoop])
  | succ fuel ih =>
    simp only [cycleLoop] at h
    split at h
    · exact absurd h (by simp)
    · exact absurd h (by simp)
    · simp only [RegRes.ok.injEq, Prod.mk.injEq] at h
      obtain ⟨rfl, rfl⟩ := h
      exact List.Perm.refl _
    next c cs heqdet =>
      split at h
      · exact absurd h (by simp)
      next pairs heqpairs =>
        have hr := ih _ _ _ _ h
        have hfilter :
            (((tds.filter fun q => (c :: cs).contains q.2.id).map pendKey) ++
              ((tds.filter fun q => !(c :: cs).contains q.2.id).map pendKey)).Perm
              (tds.map pendKey) := by
          have hp := List.filter_append_perm (fun q => (c :: cs).contains q.2.id) tds
          have := hp.map pendKey
          simpa using this
        refine hr.trans ?_
        have e1 : ((acc ++ ((tds.filter fun q => (c :: cs).contains q.2.id).map fun q => q.2).map
              fun td => (td, RegistrationError.circularReference pairs)).map failKey) =
            acc.map failKey ++
              ((tds.filter fun q => (c :: cs).contains q.2.id).map pendKey) := by
          simp [List.map_map, pendKey, failKey, Function.comp]
        rw [e1, List.append_assoc]
        exact List.Perm.append_left _ hfilter

/-- The full round loop neither drops nor duplicates a declaration. -/
theorem registerLoop_perm (fuel : Nat) (reg : TypeDefinitionRegistry) (tds : List Pending)
    (lastCount : Nat) (sAcc : List TypeDefinitionInstance)
    (fAcc : List (TypeDefinition × RegistrationError)) (r' : TypeDefinitionRegistry)
    (s : List TypeDefinitionInstance) (f : List (TypeDefinition × RegistrationError))
    (h : registerLoop fuel reg tds lastCount sAcc fAcc = .ok (r', s, f)) :
    (s.map instKey ++ f.map failKey).Perm
      (sAcc.map instKey ++ fAcc.map failKey ++ tds.map pendKey) := by
  induction fuel generalizing reg tds lastCount sAcc fAcc with
  | zero => exact absurd h (by simp [registerLoop])
  | succ fuel ih =>
    by_cases he : tds.isEmpty
    · have htds : tds = [] := by cases tds <;> simp_all
      subst htds
      simp only [registerLoop, List.isEmpty_nil, if_true, RegRes.ok.injEq, Prod.mk.injEq] at h
      obtain ⟨rfl, rfl, rfl⟩ := h
      simp
    · simp only [registerLoop, he, if_false, Bool.false_eq_true] at h
      split at h
      · exact absurd h (by simp)
      next reg2 regd failed postponed heqpr =>
        have hpr : ((regd.map instKey ++ failed.map failKey) ++ postponed.map pendKey).Perm
            (tds.map pendKey) :=
          (processRound_perm reg _ reg2 regd failed postponed heqpr).trans
            ((sortByRefCount_perm tds).map pendKey)
        have hprm := Multiset.coe_eq_coe.2 hpr
        split at h
        · -- classification
          split at h
          · exact absurd h (by simp)
          · exact absurd h (by simp)
          next circFails blocked heqcl =>
            simp only [RegRes.ok.injEq, Prod.mk.injEq] at h
            obtain ⟨rfl, rfl, rfl⟩ := h
            apply Multiset.coe_eq_coe.1
            have hbsm := Multiset.coe_eq_coe.2
              (brokenScan_perm reg2 (postponed.map fun p => p.2.id) postponed _ _ rfl)
            have hclm := Multiset.coe_eq_coe.2 (cycleLoop_perm _ _ _ _ _ heqcl)
            have hbl : (blocked.map
                fun p => ((p.2 : TypeDefinition), RegistrationError.blockedReference)).map failKey
                = blocked.map pendKey := by
              simp [List.map_map, pendKey, failKey, Function.comp]
            simp only [List.map_append, ← Multiset.coe_add, List.map_nil, List.nil_append,
              Multiset.coe_nil, zero_add, hbl] at hbsm hclm hprm ⊢
            rw [← hprm, ← hbsm, ← hclm]
            abel
        · -- progress: recurse
          have ihr := ih reg2 postponed postponed.length (sAcc ++ regd) (fAcc ++ failed) h
          apply Multiset.coe_eq_coe.1
          have ihrm := Multiset.coe_eq_coe.2 ihr
          simp only [List.map_append, ← Multiset.coe_add] at ihrm hprm ⊢
          rw [ihrm, ← hprm]
          abel

/-- C1: for every registry state and batch, when `register` returns, the
id/name keys of the succeeded instances and of the failed declarations are
together a permutation of the batch's keys: every declaration of the batch
appears exactly once across the two returned lists. -/
theorem c1_batch_partition (reg : TypeDefinitionRegistry) (batch : List TypeDefinition)
    (r' : TypeDefinitionRegistry) (s : List TypeDefinitionInstance)
    (f : List (TypeDefinition × RegistrationError))
    (h : register reg batch = .ok (r', s, f)) :
    (s.map instKey ++ f.map failKey).Perm (batch.map fun td => (td.id, td.name)) := by
  have hp := registerLoop_perm _ _ _ _ _ _ _ _ _ h
  simpa [List.map_map, pendKey, Function.comp] using hp

/-- Witness for C1: the singleton batch `[A]` registered into the empty
registry partitions exactly into the one succeeded instance. -/
theorem c1_batch_partition_witness :
    (([exInstA].map instKey ++
        ([] : List (TypeDefinition × RegistrationError)).map failKey)).Perm
      ([exTdA].map fun td => (td.id, td.name)) :=
  c1_batch_partition emptyRegistry [exTdA] exRegAB [exInstA] [] rfl

/-! ### C5: dictionary key-type validation at registration -/

/-- C5: registering a single Dictionary declaration (fresh id and name)
whose key- and value-type references resolve against the registry to
instances `kt` and `vt` (distinct reference ids): when `kt`'s kind is not a
key type the declaration fails with an `InstantiationError` of kind
"inappropriate key type" reporting `kt`'s id, name and kind string; when it
is a key type the dictionary passes the check and is registered; and the
key-type kinds are exactly String, Enum and Uuid (so Array, Dictionary,
Boolean and all numeric kinds fail). -/
theorem c5_dictionary_key_type (reg : TypeDefinitionRegistry)
    (kt vt : TypeDefinitionInstance) (a b : Id) (td : TypeDefinition)
    (htd : td.attributes = .dictionary ⟨a, b⟩) (hab : a ≠ b)
    (ha : mlookup reg.by_id a = some kt) (hb : mlookup reg.by_id b = some vt)
    (hid : mlookup reg.by_id td.id = none) (hname : mlookup reg.by_name td.name = none) :
    (kt.attributes.isKeyType = false →
      register reg [td] = .ok (reg, [],
        [(td, .instantiationError (.inappropriateKeyType kt.id kt.name
          (displayAttributesInstance kt.attributes)))])) ∧
    (kt.attributes.isKeyType = true →
      register reg [td] = .ok
        (insertTypeDefinitionInstance reg (.mk td.id td.name (.dictionary ⟨kt, vt⟩)),
         [.mk td.id td.name (.dictionary ⟨kt, vt⟩)], [])) ∧
    (kt.attributes.isKeyType = true ↔
      kt.attributes = .string ∨ (∃ e, kt.attributes = .enum e) ∨ kt.attributes = .uuid) := by
  have hba : b ≠ a := Ne.symm hab
  refine ⟨fun hkt => ?_, fun hkt => ?_, ?_⟩
  · simp [register, registerLoop, processRound, sortByRefCount, insertByRefCount,
      resolveRefs, TypeAttributes.instantiate, DictionaryTypeAttributes.instantiate,
      mremove, minsert, meraseKey, mlookup, TypeAttributes.externalIdentifierReferences,
      htd, hid, hname, ha, hb, hkt, hab, hba, PanicOr.map]
  · simp [register, registerLoop, processRound, sortByRefCount, insertByRefCount,
      resolveRefs, TypeAttributes.instantiate, DictionaryTypeAttributes.instantiate,
      mremove, minsert, meraseKey, mlookup, TypeAttributes.externalIdentifierReferences,
      htd, hid, hname, ha, hb, hkt, hab, hba, PanicOr.map, insertTypeDefinitionInstance,
      TypeDefinitionInstance.id, TypeDefinitionInstance.name]
  · obtain ⟨ki, kn, ka⟩ := kt
    cases ka <;>
      simp [TypeAttributesInstance.isKeyType, TypeDefinitionInstance.attributes]

def exKtInt : TypeDefinitionInstance := .mk 10 "K" (.int32 ⟨none, none⟩)
def exVtStr : TypeDefinitionInstance := .mk 11 "V" .string
def exRegKV : TypeDefinitionRegistry :=
  ⟨[(10, exKtInt), (11, exVtStr)], [("K", exKtInt), ("V", exVtStr)]⟩
def exTdDict : TypeDefinition := ⟨20, "DD", none, .dictionary ⟨10, 11⟩⟩

/-- Witness for C5: a Dictionary declaration whose key type resolves to an
Int32 instance fails with the inappropriate-key-type instantiation error
reporting id 10, name K and kind string `int32(..)`. -/
theorem c5_dictionary_key_type_witness :
    register exRegKV [exTdDict] = .ok (exRegKV, [],
      [(exTdDict, .instantiationError (.inappropriateKeyType 10 "K" "int32(..)"))]) :=
  (c5_dictionary_key_type exRegKV exKtInt exVtStr 10 11 exTdDict rfl (by decide)
    rfl rfl rfl rfl).1 rfl

/-! ### C9: termination of `register` — DFS chain machinery -/

theorem mlookup_mem {κ β : Type} [DecidableEq κ] {m : List (κ × β)} {k : κ} {v : β}
    (h : mlookup m k = some v) : (k, v) ∈ m := by
  induction m with
  | nil => exact absurd h (by simp [mlookup])
  | cons kv rest ih =>
    simp only [mlookup] at h
    split at h
    next heq =>
      obtain rfl := Option.some.inj h
      exact heq ▸ (Prod.mk.eta ▸ List.mem_cons_self _ _)
    next heq => exact List.mem_cons_of_mem _ (ih h)

theorem mlookup_minsert_self {κ β : Type} [DecidableEq κ] (m : List (κ × β)) (k : κ) (v : β) :
    mlookup (minsert m k v) k = some v := by
  simp [minsert, mlookup]

theorem mlookup_minsert_fresh {κ β : Type} [DecidableEq κ] {m : List (κ × β)} {k : κ}
    (hk : mlookup m k = none) (v : β) {x : κ} {y : β} (hx : mlookup m x = some y) :
    mlookup (minsert m k v) x = some y := by
  have hxk : ¬x = k := fun hc => by rw [hc, hk] at hx; exact Option.noConfusion hx
  rw [mlookup_minsert, if_neg hxk]
  exact hx

/-- The parent-pointer reachability relation underlying the cycle
reconstruction walk. -/
inductive Chain (parent : List (Nat × Nat)) : Nat → Nat → Prop where
  | refl (a : Nat) : Chain parent a a
  | step {a b c : Nat} : mlookup parent a = some b → Chain parent b c → Chain parent a c

theorem Chain.mono {p p' : List (Nat × Nat)}
    (hmono : ∀ x y, mlookup p x = some y → mlookup p' x = some y) {a c : Nat}
    (h : Chain p a c) : Chain p' a c := by
  induction h with
  | refl a => exact .refl a
  | step hl _ ih => exact .step (hmono _ _ hl) ih

/-- Reachability with the explicit trace of walked-through nodes. -/
inductive ChainT (parent : List (Nat × Nat)) : List Nat → Nat → Nat → Prop where
  | refl (a : Nat) : ChainT parent [] a a
  | step {a b c : Nat} {l : List Nat} :
      mlookup parent a = some b → ChainT parent l b c → ChainT parent (a :: l) a c

theorem Chain.toChainT {parent : List (Nat × Nat)} {a c : Nat} (h : Chain parent a c) :
    ∃ l, ChainT parent l a c := by
  induction h with
  | refl a => exact ⟨[], .refl a⟩
  | step hl _ ih => exact ih.elim fun l hc => ⟨_, .step hl hc⟩

theorem ChainT.mem_suffix {parent : List (Nat × Nat)} {l : List Nat} {b c x : Nat}
    (h : ChainT parent l b c) (hx : x ∈ l) : ∃ l', ChainT parent l' x c ∧ l' <:+ l := by
  induction h with
  | refl a => exact absurd hx (List.not_mem_nil x)
  | step hl hc ih =>
    rcases List.mem_cons.1 hx with rfl | hx'
    · exact ⟨_, .step hl hc, List.suffix_refl _⟩
    · obtain ⟨l', hc', hs⟩ := ih hx'
      exact ⟨l', hc', hs.trans (List.suffix_cons _ _)⟩

theorem ChainT.shrink {parent : List (Nat × Nat)} {l : List Nat} {a c : Nat}
    (h : ChainT parent l a c) :
    ∃ l', l'.length ≤ l.length ∧ ChainT parent l' a c ∧ l'.Nodup := by
  induction h with
  | refl a => exact ⟨[], le_refl _, .refl a, List.nodup_nil⟩
  | step hl hc ih =>
    rename_i a b c l
    obtain ⟨t', hlen, hc', hnd⟩ := ih
    by_cases ha : a ∈ t'
    · obtain ⟨l₂, hc₂, hs⟩ := hc'.mem_suffix ha
      exact ⟨l₂, le_trans (le_trans hs.sublist.length_le hlen) (Nat.le_succ _), hc₂,
        hnd.sublist hs.sublist⟩
    · exact ⟨a :: t', Nat.succ_le_succ hlen, .step hl hc', List.nodup_cons.2 ⟨ha, hnd⟩⟩

theorem ChainT.keys {parent : List (Nat × Nat)} {l : List Nat} {a c : Nat}
    (h : ChainT parent l a c) : ∀ x ∈ l, x ∈ parent.map Prod.fst := by
  induction h with
  | refl a => simp
  | step hl _ ih =>
    intro x hx
    rcases List.mem_cons.1 hx with rfl | hx'
    · exact List.mem_map.2 ⟨_, mlookup_mem hl, rfl⟩
    · exact ih x hx'

theorem ChainT.length_le_parent {parent : List (Nat × Nat)} {l : List Nat} {a c : Nat}
    (h : ChainT parent l a c) (hnd : l.Nodup) : l.length ≤ parent.length := by
  have hsub : l ⊆ parent.map Prod.fst := fun x hx => h.keys x hx
  have := (List.subperm_of_subset hnd hsub).length_le
  simpa using this

theorem walkParents_ok_of_chainT {parent : List (Nat × Nat)} {l : List Nat}
    {a s : Nat} (h : ChainT parent l a s) :
    ∀ fuel acc, l.length < fuel → ∃ acc2, walkParents fuel parent s a acc = .ok acc2 := by
  induction h with
  | refl a =>
    intro fuel acc hf
    match fuel, hf with
    | fuel + 1, _ => exact ⟨acc, by simp [walkParents]⟩
  | step hl hc ih =>
    rename_i a b c l
    intro fuel acc hf
    match fuel, hf with
    | fuel + 1, hf =>
      by_cases has : a = c
      · exact ⟨acc, by simp [walkParents, has]⟩
      · have := ih fuel (a :: acc) (Nat.lt_of_succ_lt_succ hf)
        obtain ⟨acc2, hw⟩ := this
        exact ⟨acc2, by simp [walkParents, has, hl, hw]⟩

/-- The walk of `detect_minimal_cycle`'s cycle reconstruction succeeds with
`|parent| + 1` fuel whenever the back edge's end reaches its start through
the parent pointers. -/
theorem walkParents_ok {parent : List (Nat × Nat)} {a s : Nat} (h : Chain parent a s)
    (acc : List Nat) : ∃ acc2, walkParents (parent.length + 1) parent s a acc = .ok acc2 := by
  obtain ⟨l, hct⟩ := h.toChainT
  obtain ⟨l', hlen, hct', hnd⟩ := hct.shrink
  exact walkParents_ok_of_chainT hct' _ acc (Nat.lt_succ_of_le (hct'.length_le_parent hnd))

/-! #### Visit counting -/

theorem filter_length_mono {α : Type} (l : List α) (p q : α → Bool)
    (h : ∀ x ∈ l, p x = true → q x = true) :
    (l.filter p).length ≤ (l.filter q).length := by
  induction l with
  | nil => exact le_refl _
  | cons a t ih =>
    have iht := ih fun x hx => h x (List.mem_cons_of_mem _ hx)
    by_cases hpa : p a = true
    · have hqa := h a (List.mem_cons_self _ _) hpa
      simp [List.filter, hpa, hqa]
      exact iht
    · have hpa' : p a = false := by revert hpa; cases p a <;> simp
      cases hqa : q a <;> simp [List.filter, hpa', hqa] <;> omega

theorem filter_length_lt {α : Type} (l : List α) (p q : α → Bool)
    (h : ∀ x ∈ l, q x = true → p x = true) (x : α) (hx : x ∈ l)
    (hpx : p x = true) (hqx : q x = false) :
    (l.filter q).length < (l.filter p).length := by
  induction l with
  | nil => exact absurd hx (List.not_mem_nil x)
  | cons a t ih =>
    have ht : ∀ y ∈ t, q y = true → p y = true := fun y hy => h y (List.mem_cons_of_mem _ hy)
    have hmono := filter_length_mono t q p ht
    rcases List.mem_cons.1 hx with rfl | hx'
    · simp [List.filter, hpx, hqx]
      omega
    · have iht := ih ht hx'
      by_cases hqa : q a = true
      · have hpa := h a (List.mem_cons_self _ _) hqa
        simp [List.filter, hpa, hqa]
        omega
      · have hqa' : q a = false := by revert hqa; cases q a <;> simp
        cases hpa : p a <;> simp [List.filter, hqa', hpa] <;> omega

/-- The number of still-unvisited node occurrences of the dependency graph:
the decreasing measure of the DFS. -/
def unvisited (deps : List (Nat × List Nat)) (visited : List Nat) : Nat :=
  ((allNodes deps).filter fun x => !visited.contains x).length

theorem unvisited_le_allNodes (deps : List (Nat × List Nat)) (visited : List Nat) :
    unvisited deps visited ≤ (allNodes deps).length :=
  List.length_filter_le _ _

theorem unvisited_le_of_mono {deps : List (Nat × List Nat)} {v v' : List Nat}
    (h : ∀ x, v.contains x = true → v'.contains x = true) :
    unvisited deps v' ≤ unvisited deps v := by
  refine filter_length_mono _ _ _ fun x _ hx => ?_
  revert hx
  cases hv : v.contains x
  · simp
  · have hm : x ∈ v' := by simpa using h x hv
    simp [hm]

theorem unvisited_lt_of_insert {deps : List (Nat × List Nat)} {v v' : List Nat} {x : Nat}
    (hx : x ∈ allNodes deps) (hxv : v.contains x = false) (hxv' : v'.contains x = true)
    (h : ∀ y, v.contains y = true → v'.contains y = true) :
    unvisited deps v' < unvisited deps v := by
  have hm : x ∉ v := by simpa using hxv
  have hm' : x ∈ v' := by simpa using hxv'
  refine filter_length_lt _ _ _ ?_ x hx (by simp [hm]) (by simp [hm'])
  intro y _ hy
  revert hy
  cases hv : v.contains y
  · simp
  · have hmy : y ∈ v' := by simpa using h y hv
    simp [hmy]

theorem unvisited_pos {deps : List (Nat × List Nat)} {v : List Nat} {x : Nat}
    (hx : x ∈ allNodes deps) (hxv : v.contains x = false) : 1 ≤ unvisited deps v := by
  have hm : x ∉ v := by simpa using hxv
  have : x ∈ (allNodes deps).filter fun y => !v.contains y :=
    List.mem_filter.2 ⟨hx, by simp [hm]⟩
  have := List.length_pos.2 (List.ne_nil_of_mem this)
  simpa [unvisited] using this

theorem mem_allNodes_of_mem_deps {deps : List (Nat × List Nat)} {kv : Nat × List Nat}
    (h : kv ∈ deps) : kv.1 ∈ allNodes deps ∧ ∀ x ∈ kv.2, x ∈ allNodes deps := by
  induction deps with
  | nil => exact absurd h (List.not_mem_nil kv)
  | cons a t ih =>
    rcases List.mem_cons.1 h with rfl | h'
    · constructor
      · simp [allNodes]
      · intro x hx
        simp [allNodes, hx]
    · obtain ⟨h1, h2⟩ := ih h'
      constructor
      · simp [allNodes]
        simp [allNodes] at h1
        tauto
      · intro x hx
        have := h2 x hx
        simp [allNodes] at this ⊢
        tauto

theorem neighborsOf_subset {deps : List (Nat × List Nat)} {n x : Nat}
    (hx : x ∈ neighborsOf deps n) : x ∈ allNodes deps := by
  unfold neighborsOf at hx
  split at hx
  next ns hns => exact (mem_allNodes_of_mem_deps (mlookup_mem hns)).2 x hx
  next => exact absurd hx (List.not_mem_nil x)

theorem key_mem_allNodes {deps : List (Nat × List Nat)} {k : Nat}
    (hk : k ∈ deps.map Prod.fst) : k ∈ allNodes deps := by
  obtain ⟨kv, hkv, rfl⟩ := List.mem_map.1 hk
  exact (mem_allNodes_of_mem_deps hkv).1

/-! #### The DFS invariants -/

/-- All parent keys are visited (holds between neighbor steps). -/
def DomInv (st : DfsState) : Prop := ∀ kv ∈ st.parent, st.visited.contains kv.1 = true

/-- All parent keys are visited except possibly the node just entered. -/
def DomInvExcept (node : Nat) (st : DfsState) : Prop :=
  ∀ kv ∈ st.parent, st.visited.contains kv.1 = true ∨ kv.1 = node

/-- Path nodes are visited. -/
def PathSub (st : DfsState) : Prop :=
  ∀ x, st.in_current_path.contains x = true → st.visited.contains x = true

/-- Every node on the current path is reachable from `node` through the
parent pointers — the invariant that makes cycle reconstruction succeed. -/
def PathChain (node : Nat) (st : DfsState) : Prop :=
  ∀ x, st.in_current_path.contains x = true → Chain st.parent node x

/-- The state-evolution guarantees of one `dfs`/`dfsNeighbors` call. -/
def DfsPost (st st2 : DfsState) (res : Option (Nat × Nat)) : Prop :=
  (∀ x, st.visited.contains x = true → st2.visited.contains x = true) ∧
  (∀ x y, mlookup st.parent x = some y → mlookup st2.parent x = some y) ∧
  DomInv st2 ∧ PathSub st2 ∧
  (res = none → st2.in_current_path = st.in_current_path) ∧
  (∀ cs ce, res = some (cs, ce) → Chain st2.parent ce cs)

/-- `dfs` succeeds (no fuel exhaustion) and keeps the invariants. -/
def DfsOkP (fuel : Nat) : Prop :=
  ∀ deps node st, DomInvExcept node st → PathSub st → PathChain node st →
    node ∈ allNodes deps → st.visited.contains node = false →
    unvisited deps st.visited ≤ fuel →
    ∃ st2 res, dfs fuel deps node st = some (st2, res) ∧ DfsPost st st2 res ∧
      st2.visited.contains node = true

/-- `dfsNeighbors` succeeds and keeps the invariants. -/
def DfsNbrOkP (fuel : Nat) : Prop :=
  ∀ deps node ns st, DomInv st → PathSub st → PathChain node st →
    (∀ x ∈ ns, x ∈ allNodes deps) →
    unvisited deps st.visited ≤ fuel →
    ∃ st2 res, dfsNeighbors fuel deps node ns st = some (st2, res) ∧ DfsPost st st2 res

theorem mem_of_meraseKey {κ β : Type} [DecidableEq κ] {m : List (κ × β)} {k : κ}
    {kv : κ × β} (h : kv ∈ meraseKey m k) : kv ∈ m :=
  List.mem_of_mem_filter h

theorem dfsNbr_ok_of_dfs_ok {fuel : Nat} (hdfs : DfsOkP fuel) : DfsNbrOkP fuel := by
  intro deps node ns
  induction ns with
  | nil =>
    intro st hdom hps hpc hsub hcnt
    refine ⟨st, none, by simp [dfsNeighbors], fun _ h => h, fun _ _ h => h, hdom, hps,
      fun _ => rfl, fun cs ce h => Option.noConfusion h⟩
  | cons nb rest ih =>
    intro st hdom hps hpc hsub hcnt
    by_cases hv : st.visited.contains nb = true
    · have hvm : nb ∈ st.visited := by simpa using hv
      by_cases hp : st.in_current_path.contains nb = true
      · have hpm : nb ∈ st.in_current_path := by simpa using hp
        refine ⟨st, some (nb, node), by simp [dfsNeighbors, hvm, hpm], fun _ h => h,
          fun _ _ h => h, hdom, hps, by simp, ?_⟩
        intro cs ce h
        obtain ⟨h1, h2⟩ := Prod.mk.injEq .. ▸ Option.some.inj h
        exact h1 ▸ h2 ▸ hpc nb hp
      · have hpm' : nb ∉ st.in_current_path := by
          intro hc
          exact hp (by simpa using hc)
        obtain ⟨st2, res, heq, hpost⟩ :=
          ih st hdom hps hpc (fun x hx => hsub x (List.mem_cons_of_mem _ hx)) hcnt
        exact ⟨st2, res, by simp [dfsNeighbors, hvm, hpm', heq], hpost⟩
    · have hv' : st.visited.contains nb = false := by
        revert hv; cases st.visited.contains nb <;> simp
      have hvm' : nb ∉ st.visited := by simpa using hv'
      have hfresh : mlookup st.parent nb = none := by
        cases hl : mlookup st.parent nb with
        | none => rfl
        | some y =>
          have := hdom _ (mlookup_mem hl)
          rw [hv'] at this
          exact Bool.noConfusion this
      have hmono' : ∀ x y, mlookup st.parent x = some y →
          mlookup (minsert st.parent nb node) x = some y :=
        fun x y hx => mlookup_minsert_fresh hfresh node hx
      have hdome : DomInvExcept nb
          ⟨st.in_current_path, minsert st.parent nb node, st.visited⟩ := by
        intro kv hkv
        rcases List.mem_cons.1 (by simpa [minsert] using hkv) with rfl | hkv'
        · exact .inr rfl
        · exact .inl (hdom kv (mem_of_meraseKey hkv'))
      have hpc' : PathChain nb ⟨st.in_current_path, minsert st.parent nb node, st.visited⟩ := by
        intro x hx
        exact .step (mlookup_minsert_self _ _ _) ((hpc x hx).mono hmono')
      obtain ⟨st2, res2, heq2, hpost2, hnbvis⟩ :=
        hdfs deps nb ⟨st.in_current_path, minsert st.parent nb node, st.visited⟩ hdome hps hpc'
          (hsub nb (List.mem_cons_self _ _)) hv' hcnt
      obtain ⟨hvis2, hpar2, hdom2, hpsub2, hpres2, hchain2⟩ := hpost2
      cases res2 with
      | some cyc =>
        refine ⟨st2, some cyc, ?_, hvis2, fun x y hx => hpar2 x y (hmono' x y hx),
          hdom2, hpsub2, by simp, fun cs ce h => hchain2 cs ce h⟩
        simp [dfsNeighbors, hvm', heq2]
      | none =>
        have hpatheq : st2.in_current_path = st.in_current_path := hpres2 rfl
        have hpc2 : PathChain node st2 := by
          intro x hx
          rw [hpatheq] at hx
          exact (hpc x hx).mono fun a b hab => hpar2 a b (hmono' a b hab)
        have hcnt2 : unvisited deps st2.visited ≤ fuel :=
          le_trans (unvisited_le_of_mono hvis2) hcnt
        obtain ⟨st3, res3, heq3, hpost3⟩ :=
          ih st2 hdom2 hpsub2 hpc2 (fun x hx => hsub x (List.mem_cons_of_mem _ hx)) hcnt2
        obtain ⟨hvis3, hpar3, hdom3, hpsub3, hpres3, hchain3⟩ := hpost3
        refine ⟨st3, res3, ?_, fun x hx => hvis3 x (hvis2 x hx),
          fun x y hx => hpar3 x y (hpar2 x y (hmono' x y hx)), hdom3, hpsub3, ?_, hchain3⟩
        · simp [dfsNeighbors, hvm', heq2, heq3]
        · intro h
          rw [hpres3 h, hpatheq]

theorem dfs_ok_zero : DfsOkP 0 := by
  intro deps node st _ _ _ hmem hv hcnt
  have := unvisited_pos hmem hv
  omega

theorem dfs_ok_succ {fuel : Nat} (hnbr : DfsNbrOkP fuel) : DfsOkP (fuel + 1) := by
  intro deps node st hdome hps hpc hmem hv hcnt
  have hnp : st.in_current_path.contains node = false := by
    cases hq : st.in_current_path.contains node with
    | false => rfl
    | true =>
      have := hps node hq
      rw [hv] at this
      exact Bool.noConfusion this
  have hins_path : insertIfAbsent node st.in_current_path = node :: st.in_current_path := by
    simp only [insertIfAbsent, hnp, Bool.false_eq_true, if_false]
  have hins_vis : insertIfAbsent node st.visited = node :: st.visited := by
    simp only [insertIfAbsent, hv, Bool.false_eq_true, if_false]
  have hvis1 : ∀ x, st.visited.contains x = true →
      (insertIfAbsent node st.visited).contains x = true := by
    intro x hx
    rw [hins_vis]
    have : x ∈ st.visited := by simpa using hx
    simp [this]
  have hnode1 : (insertIfAbsent node st.visited).contains node = true := by
    rw [hins_vis]; simp
  have hdom1 : DomInv ⟨insertIfAbsent node st.in_current_path, st.parent,
      insertIfAbsent node st.visited⟩ := by
    intro kv hkv
    rcases hdome kv hkv with hvk | hk
    · exact hvis1 _ hvk
    · rw [hk]; exact hnode1
  have hps1 : PathSub ⟨insertIfAbsent node st.in_current_path, st.parent,
      insertIfAbsent node st.visited⟩ := by
    intro x hx
    rw [hins_path] at hx
    have hx' : x = node ∨ x ∈ st.in_current_path := by simpa using hx
    rcases hx' with rfl | hx'
    · exact hnode1
    · exact hvis1 x (hps x (by simpa using hx'))
  have hpc1 : PathChain node ⟨insertIfAbsent node st.in_current_path, st.parent,
      insertIfAbsent node st.visited⟩ := by
    intro x hx
    rw [hins_path] at hx
    have hx' : x = node ∨ x ∈ st.in_current_path := by simpa using hx
    rcases hx' with rfl | hx'
    · exact .refl x
    · exact hpc x (by simpa using hx')
  have hcnt1 : unvisited deps (insertIfAbsent node st.visited) ≤ fuel := by
    have hlt := unvisited_lt_of_insert hmem hv hnode1 hvis1
    omega
  obtain ⟨st2, res2, heq2, hpost2⟩ :=
    hnbr deps node (neighborsOf deps node)
      ⟨insertIfAbsent node st.in_current_path, st.parent, insertIfAbsent node st.visited⟩
      hdom1 hps1 hpc1 (fun x hx => neighborsOf_subset hx) hcnt1
  obtain ⟨hvis2, hpar2, hdom2, hpsub2, hpres2, hchain2⟩ := hpost2
  have hnodevis2 : st2.visited.contains node = true := hvis2 node hnode1
  cases res2 with
  | some cyc =>
    refine ⟨st2, some cyc, by simp [dfs, heq2], ?_, hnodevis2⟩
    exact ⟨fun x hx => hvis2 x (hvis1 x hx), hpar2, hdom2, hpsub2, by simp,
      fun cs ce h => hchain2 cs ce h⟩
  | none =>
    have hpath2 : st2.in_current_path = node :: st.in_current_path := by
      rw [hpres2 rfl, hins_path]
    refine ⟨⟨st2.in_current_path.erase node, st2.parent, st2.visited⟩, none,
      by simp [dfs, heq2], ?_, hnodevis2⟩
    have herase : st2.in_current_path.erase node = st.in_current_path := by
      rw [hpath2, List.erase_cons_head]
    refine ⟨fun x hx => hvis2 x (hvis1 x hx), hpar2, hdom2, ?_, fun _ => herase,
      fun cs ce h => Option.noConfusion h⟩
    intro x hx
    simp only at hx
    rw [herase] at hx
    exact hvis2 x (hvis1 x (hps x hx))

/-- Fuel sufficiency + invariants for the DFS, all fuels. -/
theorem dfs_ok_all : ∀ fuel, DfsOkP fuel ∧ DfsNbrOkP fuel := by
  intro fuel
  induction fuel with
  | zero => exact ⟨dfs_ok_zero, dfsNbr_ok_of_dfs_ok dfs_ok_zero⟩
  | succ g ihg =>
    have hd := dfs_ok_succ ihg.2
    exact ⟨hd, dfsNbr_ok_of_dfs_ok hd⟩

/-! #### `detect_minimal_cycle` and the loops never exhaust their fuel -/

theorem detectFromKeys_ok (deps : List (Nat × List Nat)) :
    ∀ (keys : List Nat) (st : DfsState), DomInv st → st.in_current_path = [] →
    (∀ k ∈ keys, k ∈ allNodes deps) →
    ∃ r, detectFromKeys deps ((allNodes deps).length + 1) st keys = .ok r := by
  intro keys
  induction keys with
  | nil => exact fun st _ _ _ => ⟨[], rfl⟩
  | cons k rest ih =>
    intro st hdom hpath hsub
    by_cases hv : st.visited.contains k = true
    · have hvm : k ∈ st.visited := by simpa using hv
      obtain ⟨r, hr⟩ := ih st hdom hpath fun x hx => hsub x (List.mem_cons_of_mem _ hx)
      exact ⟨r, by simp [detectFromKeys, hvm, hr]⟩
    · have hv' : st.visited.contains k = false := by
        revert hv; cases st.visited.contains k <;> simp
      have hvm' : k ∉ st.visited := by simpa using hv'
      have hpsub : PathSub st := by
        intro x hx
        rw [hpath] at hx
        exact Bool.noConfusion hx
      have hpch : PathChain k st := by
        intro x hx
        rw [hpath] at hx
        exact Bool.noConfusion hx
      obtain ⟨st2, res, heq, hpost, _⟩ :=
        (dfs_ok_all ((allNodes deps).length + 1)).1 deps k st
          (fun kv hkv => .inl (hdom kv hkv)) hpsub hpch (hsub k (List.mem_cons_self _ _)) hv'
          (le_trans (unvisited_le_allNodes deps st.visited) (Nat.le_succ _))
      obtain ⟨hvis, hpar, hdom2, hpsub2, hpres, hchain⟩ := hpost
      cases res with
      | none =>
        have hpath2 : st2.in_current_path = [] := by rw [hpres rfl, hpath]
        obtain ⟨r, hr⟩ := ih st2 hdom2 hpath2 fun x hx => hsub x (List.mem_cons_of_mem _ hx)
        exact ⟨r, by simp [detectFromKeys, hvm', heq, hr]⟩
      | some cyc =>
        obtain ⟨cs, ce⟩ := cyc
        obtain ⟨acc2, hw⟩ := walkParents_ok (hchain cs ce rfl) []
        exact ⟨cs :: (acc2 ++ [cs]), by simp [detectFromKeys, hvm', heq, hw, RegRes.map]⟩

/-- `detect_minimal_cycle` always returns (its DFS fuel and its
reconstruction-walk fuel are sufficient, and the walk's parent lookups never
miss). -/
theorem detectMinimalCycle_ok (deps : List (Nat × List Nat)) :
    ∃ c, detectMinimalCycle deps = .ok c := by
  unfold detectMinimalCycle
  exact detectFromKeys_ok deps (deps.map fun p => p.1) ⟨[], [], []⟩
    (fun kv hkv => absurd hkv (List.not_mem_nil kv)) rfl
    (fun k hk => key_mem_allNodes hk)

theorem cyclePairs_nonempty {cyclic : List TypeDefinition} {c : Nat} {cs : List Nat}
    {pairs : List (Id × FieldName)} (h : cyclePairs cyclic (c :: cs) = some pairs) :
    cyclic ≠ [] := by
  intro hc
  subst hc
  simp [cyclePairs, List.find?] at h

theorem filter_ne_nil_length_lt {α : Type} {l : List α} {p : α → Bool}
    (h : l.filter p ≠ []) : (l.filter fun x => !p x).length < l.length := by
  have hlen := (List.filter_append_perm p l).length_eq
  rw [List.length_append] at hlen
  have hpos : 0 < (l.filter p).length := List.length_pos.2 h
  omega

theorem cycleLoop_ok : ∀ (fuel : Nat) (tds : List Pending)
    (acc : List (TypeDefinition × RegistrationError)), tds.length < fuel →
    (cycleLoop fuel tds acc).isFuelOut = false := by
  intro fuel
  induction fuel with
  | zero => intro tds acc h; omega
  | succ fuel ih =>
    intro tds acc h
    obtain ⟨c, hc⟩ := detectMinimalCycle_ok (buildDeps tds)
    cases c with
    | nil => simp [cycleLoop, hc, RegRes.isFuelOut]
    | cons c0 cs =>
      cases hcp : cyclePairs
          ((tds.filter fun p => (c0 :: cs).contains p.2.id).map fun p => p.2) (c0 :: cs) with
      | none =>
        simp only [cycleLoop, hc, hcp]
        rfl
      | some pairs =>
        have hne : (tds.filter fun p => (c0 :: cs).contains p.2.id) ≠ [] := by
          intro hx
          have := cyclePairs_nonempty hcp
          rw [hx] at this
          exact this rfl
        have hlt := filter_ne_nil_length_lt hne
        have hrec := ih (tds.filter fun p => !(c0 :: cs).contains p.2.id)
          (acc ++ ((tds.filter fun p => (c0 :: cs).contains p.2.id).map fun p => p.2).map
            fun td => (td, .circularReference pairs)) (by omega)
        simp only [cycleLoop, hc, hcp]
        exact hrec

theorem processRound_postponed_le {reg : TypeDefinitionRegistry} {tds : List Pending}
    {r2 : TypeDefinitionRegistry} {s : List TypeDefinitionInstance}
    {f : List (TypeDefinition × RegistrationError)} {p : List Pending}
    (h : processRound reg tds = .ok (r2, s, f, p)) : p.length ≤ tds.length := by
  have hq := (processRound_perm reg tds r2 s f p h).length_eq
  simp only [List.length_append, List.length_map] at hq
  omega

theorem registerLoop_ok : ∀ (fuel : Nat) (reg : TypeDefinitionRegistry) (tds : List Pending)
    (lastCount : Nat) (sAcc : List TypeDefinitionInstance)
    (fAcc : List (TypeDefinition × RegistrationError)), tds.length < fuel →
    lastCount = tds.length →
    (registerLoop fuel reg tds lastCount sAcc fAcc).isFuelOut = false := by
  intro fuel
  induction fuel with
  | zero => intro _ tds _ _ _ h _; omega
  | succ fuel ih =>
    intro reg tds lastCount sAcc fAcc hlen hlc
    by_cases he : tds.isEmpty
    · simp [registerLoop, he, RegRes.isFuelOut]
    · cases hpr : processRound reg (sortByRefCount tds) with
      | panicked m => simp [registerLoop, he, hpr, RegRes.isFuelOut]
      | ok out =>
        obtain ⟨reg2, regd, failed, postponed⟩ := out
        have hple : postponed.length ≤ tds.length := by
          have h1 := processRound_postponed_le hpr
          have h2 : (sortByRefCount tds).length = tds.length := (sortByRefCount_perm tds).length_eq
          omega
        by_cases hcl : postponed.length = lastCount
        · have hcyc := cycleLoop_ok
            ((brokenScan reg2 (postponed.map fun p => p.2.id) postponed).2.length + 1)
            (brokenScan reg2 (postponed.map fun p => p.2.id) postponed).2 []
            (Nat.lt_succ_self _)
          cases hcy : cycleLoop
              ((brokenScan reg2 (postponed.map fun p => p.2.id) postponed).2.length + 1)
              (brokenScan reg2 (postponed.map fun p => p.2.id) postponed).2 [] with
          | fuelOut => rw [hcy] at hcyc; exact absurd hcyc (by simp [RegRes.isFuelOut])
          | panicked m => simp [registerLoop, he, hpr, hcl, hcy, RegRes.isFuelOut]
          | ok out2 =>
            obtain ⟨cf, blk⟩ := out2
            simp [registerLoop, he, hpr, hcl, hcy, RegRes.isFuelOut]
        · have hrec := ih reg2 postponed postponed.length (sAcc ++ regd) (fAcc ++ failed)
            (by omega) rfl
          simp [registerLoop, he, hpr, hcl, hrec]

/-- C9: `register` terminates on every registry state and finite batch —
the round loop, the broken-reference pass, the repeated minimal-cycle
extraction (including its DFS and its parent-pointer reconstruction walk)
all complete within the proved fuel bounds, and the result is a function of
the registry contents and the batch (it is a Lean function). -/
theorem c9_register_terminates (reg : TypeDefinitionRegistry) (batch : List TypeDefinition) :
    (register reg batch).isFuelOut = false := by
  unfold register
  exact registerLoop_ok _ reg _ _ [] [] (by simp) (by simp)

/-! ### C4: broken references are classified as such (under freshness) -/

/-- A declaration with an unresolvable reference never resolves. -/
theorem resolveRefs_none {reg : TypeDefinitionRegistry} {refs : List Id} {m : Id}
    (hm : m ∈ refs) (hnone : mlookup reg.by_id m = none) :
    ∀ acc, resolveRefs reg refs acc = none := by
  induction refs with
  | nil => exact absurd hm (List.not_mem_nil m)
  | cons r rest ih =>
    intro acc
    rcases List.mem_cons.1 hm with rfl | hm'
    · simp [resolveRefs, hnone]
    · cases hl : mlookup reg.by_id r with
      | none => simp [resolveRefs, hl]
      | some inst => simp [resolveRefs, hl, ih hm' _]

/-- Through one round, a declaration with an unresolvable reference and a
fresh id and name is postponed, and the indexes stay free of its id, its
name and the missing reference id. -/
theorem processRound_c4 {refs0 : List Id} {td0 : TypeDefinition} {m : Id}
    (hm : m ∈ refs0) :
    ∀ (tds : List Pending) (reg reg2 : TypeDefinitionRegistry)
      (s : List TypeDefinitionInstance) (f : List (TypeDefinition × RegistrationError))
      (p : List Pending),
    processRound reg tds = .ok (reg2, s, f, p) →
    mlookup reg.by_id m = none → mlookup reg.by_id td0.id = none →
    mlookup reg.by_name td0.name = none →
    (∀ q ∈ tds, q.2.id ≠ m) →
    (∀ q ∈ tds, q ≠ (refs0, td0) → q.2.id ≠ td0.id ∧ q.2.name ≠ td0.name) →
    mlookup reg2.by_id m = none ∧ mlookup reg2.by_id td0.id = none ∧
      mlookup reg2.by_name td0.name = none ∧
      ((refs0, td0) ∈ tds → (refs0, td0) ∈ p) := by
  intro tds
  induction tds with
  | nil =>
    intro reg reg2 s f p h g1 g2 g3 _ _
    simp only [processRound, PanicOr.ok.injEq, Prod.mk.injEq] at h
    obtain ⟨rfl, rfl, rfl, rfl⟩ := h
    exact ⟨g1, g2, g3, fun hmem => absurd hmem (List.not_mem_nil _)⟩
  | cons head rest ih =>
    intro reg reg2 s f p h g1 g2 g3 hids hdist
    obtain ⟨refs, td⟩ := head
    have hids' : ∀ q ∈ rest, q.2.id ≠ m := fun q hq => hids q (List.mem_cons_of_mem _ hq)
    have hdist' : ∀ q ∈ rest, q ≠ (refs0, td0) → q.2.id ≠ td0.id ∧ q.2.name ≠ td0.name :=
      fun q hq => hdist q (List.mem_cons_of_mem _ hq)
    simp only [processRound] at h
    split at h
    next existing heqid =>
      rw [PanicOr.map_eq_ok] at h
      obtain ⟨⟨r2', s', f', p'⟩, hrec, heq⟩ := h
      simp only [Prod.mk.injEq] at heq
      obtain ⟨rfl, rfl, rfl, rfl⟩ := heq
      obtain ⟨c1, c2, c3, c4⟩ := ih reg r2' s' f' p' hrec g1 g2 g3 hids' hdist'
      refine ⟨c1, c2, c3, fun hmem => ?_⟩
      rcases List.mem_cons.1 hmem with heq | hmem'
      · obtain ⟨h1, h2⟩ := Prod.mk.injEq .. ▸ heq.symm
        rw [h2] at heqid
        rw [heqid] at g2
        exact Option.noConfusion g2
      · exact c4 hmem'
    next heqid =>
      split at h
      next existing heqname =>
        rw [PanicOr.map_eq_ok] at h
        obtain ⟨⟨r2', s', f', p'⟩, hrec, heq⟩ := h
        simp only [Prod.mk.injEq] at heq
        obtain ⟨rfl, rfl, rfl, rfl⟩ := heq
        obtain ⟨c1, c2, c3, c4⟩ := ih reg r2' s' f' p' hrec g1 g2 g3 hids' hdist'
        refine ⟨c1, c2, c3, fun hmem => ?_⟩
        rcases List.mem_cons.1 hmem with heq | hmem'
        · obtain ⟨h1, h2⟩ := Prod.mk.injEq .. ▸ heq.symm
          rw [h2] at heqname
          rw [heqname] at g3
          exact Option.noConfusion g3
        · exact c4 hmem'
      next heqname =>
        split at h
        next heqres =>
          rw [PanicOr.map_eq_ok] at h
          obtain ⟨⟨r2', s', f', p'⟩, hrec, heq⟩ := h
          simp only [Prod.mk.injEq] at heq
          obtain ⟨rfl, rfl, rfl, rfl⟩ := heq
          obtain ⟨c1, c2, c3, c4⟩ := ih reg r2' s' f' p' hrec g1 g2 g3 hids' hdist'
          refine ⟨c1, c2, c3, fun hmem => ?_⟩
          rcases List.mem_cons.1 hmem with heq | hmem'
          · exact heq ▸ List.mem_cons_self _ _
          · exact List.mem_cons_of_mem _ (c4 hmem')
        next refs_by_id heqres =>
          have hne : ¬(refs, td) = (refs0, td0) := by
            intro hc
            obtain ⟨h1, h2⟩ := Prod.mk.injEq .. ▸ hc
            rw [h1] at heqres
            rw [resolveRefs_none hm g1 []] at heqres
            exact Option.noConfusion heqres
          split at h
          next mm heqinst => exact absurd h (by simp)
          next e heqinst =>
            rw [PanicOr.map_eq_ok] at h
            obtain ⟨⟨r2', s', f', p'⟩, hrec, heq⟩ := h
            simp only [Prod.mk.injEq] at heq
            obtain ⟨rfl, rfl, rfl, rfl⟩ := heq
            obtain ⟨c1, c2, c3, c4⟩ := ih reg r2' s' f' p' hrec g1 g2 g3 hids' hdist'
            refine ⟨c1, c2, c3, fun hmem => ?_⟩
            rcases List.mem_cons.1 hmem with heq | hmem'
            · exact absurd heq.symm hne
            · exact c4 hmem'
          next attrs heqinst =>
            rw [PanicOr.map_eq_ok] at h
            obtain ⟨⟨r2', s', f', p'⟩, hrec, heq⟩ := h
            simp only [Prod.mk.injEq] at heq
            obtain ⟨rfl, rfl, rfl, rfl⟩ := heq
            have hdisthead := hdist (refs, td) (List.mem_cons_self _ _) hne
            have hidhead := hids (refs, td) (List.mem_cons_self _ _)
            have g1' : mlookup (insertTypeDefinitionInstance reg
                (TypeDefinitionInstance.mk td.id td.name attrs)).by_id m = none := by
              rw [insertTypeDefinitionInstance]
              simp only [mlookup_minsert]
              rw [if_neg (fun hc => hidhead hc.symm)]
              exact g1
            have g2' : mlookup (insertTypeDefinitionInstance reg
                (TypeDefinitionInstance.mk td.id td.name attrs)).by_id td0.id = none := by
              rw [insertTypeDefinitionInstance]
              simp only [mlookup_minsert]
              rw [if_neg (fun hc => hdisthead.1 hc.symm)]
              exact g2
            have g3' : mlookup (insertTypeDefinitionInstance reg
                (TypeDefinitionInstance.mk td.id td.name attrs)).by_name td0.name = none := by
              rw [insertTypeDefinitionInstance]
              simp only [mlookup_minsert]
              rw [if_neg (fun hc => hdisthead.2 hc.symm)]
              exact g3
            obtain ⟨c1, c2, c3, c4⟩ := ih _ r2' s' f' p' hrec g1' g2' g3' hids' hdist'
            refine ⟨c1, c2, c3, fun hmem => ?_⟩
            rcases List.mem_cons.1 hmem with heq | hmem'
            · exact absurd heq.symm hne
            · exact c4 hmem'

/-- A pending declaration whose first-missing-reference test fires ends up
in the broken-reference failures of the classification pass. -/
theorem brokenScan_mem {reg : TypeDefinitionRegistry} {rem : List Id} :
    ∀ (tds : List Pending) {refs : List Id} {td : TypeDefinition} {r : Id},
    (refs, td) ∈ tds →
    refs.find? (fun x => !(rem.contains x || (mlookup reg.by_id x).isSome)) = some r →
    (td, RegistrationError.brokenReference r) ∈ (brokenScan reg rem tds).1 := by
  intro tds
  induction tds with
  | nil => intro refs td r h _; exact absurd h (List.not_mem_nil _)
  | cons head rest ih =>
    intro refs td r hmem hfind
    obtain ⟨refs1, td1⟩ := head
    rcases List.mem_cons.1 hmem with heq | hmem'
    · obtain ⟨h1, h2⟩ := Prod.mk.injEq .. ▸ heq
      subst h1; subst h2
      simp only [brokenScan, hfind]
      exact List.mem_cons_self _ _
    · have hr := ih hmem' hfind
      simp only [brokenScan]
      split
      next r1 heq1 => exact List.mem_cons_of_mem _ hr
      next heq1 => exact hr

/-- Across the whole round loop: a declaration with fresh id and name and
an unresolvable reference ends up failed with `BrokenReference`. -/
theorem registerLoop_c4 {refs0 : List Id} {td0 : TypeDefinition} {m : Id} (hm : m ∈ refs0) :
    ∀ (fuel : Nat) (reg : TypeDefinitionRegistry) (tds : List Pending) (lastCount : Nat)
      (sAcc : List TypeDefinitionInstance) (fAcc : List (TypeDefinition × RegistrationError))
      (r' : TypeDefinitionRegistry) (s : List TypeDefinitionInstance)
      (f : List (TypeDefinition × RegistrationError)),
    registerLoop fuel reg tds lastCount sAcc fAcc = .ok (r', s, f) →
    (refs0, td0) ∈ tds →
    mlookup reg.by_id m = none → mlookup reg.by_id td0.id = none →
    mlookup reg.by_name td0.name = none →
    (∀ q ∈ tds, q.2.id ≠ m) →
    (∀ q ∈ tds, q ≠ (refs0, td0) → q.2.id ≠ td0.id ∧ q.2.name ≠ td0.name) →
    ∃ r, r ∈ refs0 ∧ mlookup reg.by_id r = none ∧
      (td0, RegistrationError.brokenReference r) ∈ f := by
  intro fuel
  induction fuel with
  | zero => intro _ _ _ _ _ _ _ _ h; exact absurd h (by simp [registerLoop])
  | succ fuel ih =>
    intro reg tds lastCount sAcc fAcc r' s f h hin g1 g2 g3 hids hdist
    have he : ¬tds.isEmpty = true := by
      cases tds with
      | nil => exact absurd hin (List.not_mem_nil _)
      | cons a t => simp
    simp only [registerLoop, he, if_false, Bool.false_eq_true] at h
    split at h
    · exact absurd h (by simp)
    next reg2 regd failed postponed heqpr =>
      have hsortmem : ∀ q, q ∈ sortByRefCount tds ↔ q ∈ tds :=
        fun q => (sortByRefCount_perm tds).mem_iff
      obtain ⟨g1', g2', g3', hpost⟩ := processRound_c4 hm (sortByRefCount tds) reg reg2
        regd failed postponed heqpr g1 g2 g3
        (fun q hq => hids q ((hsortmem q).1 hq))
        (fun q hq => hdist q ((hsortmem q).1 hq))
      have hinp : (refs0, td0) ∈ postponed := hpost ((hsortmem _).2 hin)
      have hsub : ∀ q ∈ postponed, q ∈ tds := by
        intro q hq
        exact (hsortmem q).1
          ((processRound_spec reg _ reg2 regd failed postponed heqpr).2.2.2.2.2.2 q hq)
      have hmono := (processRound_spec reg _ reg2 regd failed postponed heqpr).1
      split at h
      · -- classification round: the broken scan catches it
        split at h
        · exact absurd h (by simp)
        · exact absurd h (by simp)
        next circFails blocked heqcl =>
          simp only [RegRes.ok.injEq, Prod.mk.injEq] at h
          obtain ⟨rfl, rfl, rfl⟩ := h
          have hcontm : (postponed.map fun p => p.2.id).contains m = false := by
            cases hq : (postponed.map fun p => p.2.id).contains m with
            | false => rfl
            | true =>
              have hmm : m ∈ postponed.map fun p => p.2.id := by simpa using hq
              obtain ⟨q, hqmem, hq2⟩ := List.mem_map.1 hmm
              exact absurd hq2 (hids q (hsub q hqmem))
          have hpredm : (!((postponed.map fun p => p.2.id).contains m ||
              (mlookup reg2.by_id m).isSome)) = true := by
            rw [hcontm, g1']
            rfl
          have hfinds : ∃ r, refs0.find? (fun x => !((postponed.map fun p => p.2.id).contains x
              || (mlookup reg2.by_id x).isSome)) = some r := by
            cases hf : refs0.find? (fun x => !((postponed.map fun p => p.2.id).contains x
                || (mlookup reg2.by_id x).isSome)) with
            | some r => exact ⟨r, rfl⟩
            | none => exact absurd hpredm (List.find?_eq_none.1 hf m hm)
          obtain ⟨r, hfind⟩ := hfinds
          have hrmem : r ∈ refs0 := List.mem_of_find?_eq_some hfind
          have hrpred := List.find?_some hfind
          have hrnone2 : mlookup reg2.by_id r = none := by
            revert hrpred
            cases hl : mlookup reg2.by_id r
            · simp
            · simp [hl]
          have hrnone : mlookup reg.by_id r = none := by
            cases hl : mlookup reg.by_id r with
            | none => rfl
            | some v =>
              rw [hmono r v hl] at hrnone2
              exact Option.noConfusion hrnone2
          refine ⟨r, hrmem, hrnone, ?_⟩
          have hbmem := brokenScan_mem postponed hinp hfind
          simp only [List.mem_append]
          exact .inl (.inl (.inr hbmem))
      · -- progress: recurse on the postponed list
        obtain ⟨r, hrmem, hrnone2, hrf⟩ := ih reg2 postponed postponed.length
          (sAcc ++ regd) (fAcc ++ failed) r' s f h hinp g1' g2' g3'
          (fun q hq => hids q (hsub q hq))
          (fun q hq => hdist q (hsub q hq))
        refine ⟨r, hrmem, ?_, hrf⟩
        cases hl : mlookup reg.by_id r with
        | none => rfl
        | some v =>
          rw [hmono r v hl] at hrnone2
          exact Option.noConfusion hrnone2

/-- C4 (amended): a declaration of the batch whose id and name are fresh
(no collision with the registry or with any other batch declaration)
and which holds an external reference to an id that is neither in `by_id`
nor the id of any batch declaration, ends up in the failed list with
`BrokenReference` reporting an unresolvable reference id (the first such
one). Without the freshness proviso the declaration can fail with a
duplicate error instead, as the counterexample shows. -/
theorem c4_broken_reference (reg : TypeDefinitionRegistry) (batch : List TypeDefinition)
    (td0 : TypeDefinition) (m : Id) (r' : TypeDefinitionRegistry)
    (s : List TypeDefinitionInstance) (f : List (TypeDefinition × RegistrationError))
    (htd : td0 ∈ batch)
    (hm : m ∈ td0.attributes.externalIdentifierReferences)
    (hmreg : mlookup reg.by_id m = none)
    (hmbatch : ∀ td ∈ batch, td.id ≠ m)
    (hidfresh : mlookup reg.by_id td0.id = none)
    (hnamefresh : mlookup reg.by_name td0.name = none)
    (hiddist : ∀ td ∈ batch, td ≠ td0 → td.id ≠ td0.id)
    (hnamedist : ∀ td ∈ batch, td ≠ td0 → td.name ≠ td0.name)
    (h : register reg batch = .ok (r', s, f)) :
    ∃ r, r ∈ td0.attributes.externalIdentifierReferences ∧
      mlookup reg.by_id r = none ∧
      (td0, RegistrationError.brokenReference r) ∈ f := by
  refine registerLoop_c4 hm _ reg _ _ [] [] r' s f h ?_ hmreg hidfresh hnamefresh ?_ ?_
  · exact List.mem_map.2 ⟨td0, htd, rfl⟩
  · intro q hq
    obtain ⟨td, htd', rfl⟩ := List.mem_map.1 hq
    exact hmbatch td htd'
  · intro q hq hne
    obtain ⟨td, htd', rfl⟩ := List.mem_map.1 hq
    have htdne : td ≠ td0 := by
      intro hc
      subst hc
      exact hne rfl
    exact ⟨hiddist td htd' htdne, hnamedist td htd' htdne⟩

def exTdBroken : TypeDefinition := ⟨2, "B2", none, .array ⟨99⟩⟩

/-- Witness for C4: in the batch `[A(id 1), B2(id 2 → 99)]` against the
empty registry, B2 (fresh id and name, reference 99 unresolvable) is
reported as a broken reference. -/
theorem c4_broken_reference_witness :
    ∃ r, r ∈ exTdBroken.attributes.externalIdentifierReferences ∧
      mlookup emptyRegistry.by_id r = none ∧
      (exTdBroken, RegistrationError.brokenReference r) ∈
        [(exTdBroken, RegistrationError.brokenReference 99)] :=
  c4_broken_reference emptyRegistry [exTdA, exTdBroken] exTdBroken 99 _ _ _
    (by simp) (by simp [exTdBroken, TypeAttributes.externalIdentifierReferences]) rfl
    (by intro td htd
        have h2 : td = exTdA ∨ td = exTdBroken := by simpa using htd
        rcases h2 with rfl | rfl <;> simp [exTdA, exTdBroken])
    rfl rfl
    (by intro td htd hne
        have h2 : td = exTdA ∨ td = exTdBroken := by simpa using htd
        rcases h2 with rfl | rfl
        · simp [exTdA, exTdBroken]
        · exact absurd rfl hne)
    (by intro td htd hne
        have h2 : td = exTdA ∨ td = exTdBroken := by simpa using htd
        rcases h2 with rfl | rfl
        · simp [exTdA, exTdBroken]
        · exact absurd rfl hne)
    rfl

end Gameson
